import Mathlib

/-!
Verification of the twitter-likes-archiver ingestion pipeline.

The definitions below are a shallow embedding of the repository's
TypeScript source:
  * `src/importer/TwitterImporter.ts`  (createTweet, stageLikes,
    getStagedLikes, deleteStagedLikes, createLikes)
  * `src/importer/FileImporter.ts`     (download)
  * `src/importer/JobManager.ts`       (run loop, initialize,
    downloadUserLikesJob)
  * `src/util/conversion.ts`           (linkEntities)

The SQLite database accessed through Prisma is modelled as a record of
tables, each table a list of rows kept in insertion order (SQLite rowid
order).  Auto-increment columns are modelled with explicit `next*`
counters on the database state.  Prisma queries are translated
operation-by-operation: `upsert` checks the unique key and either
inserts a fresh row at the end of the table or applies the update;
`connectOrCreate` looks the row up by its natural key and creates it if
absent; `findMany`/`findFirst` filter the table in insertion order;
`$transaction` applies a list of operations atomically (all-or-nothing),
which we reflect by a list of observable states.  Dates and byte
buffers are modelled as integers.  JSON (de)serialisation of job
arguments is elided: arguments are stored structurally.
-/

namespace TwitterArchiver

/-- A row of the `TwitterUser` table. -/
structure UserRow where
  id : String
  name : String
  username : String
  created_at : Int
deriving Repr, DecidableEq

/-- A row of the `TwitterTweetSource` table (auto-increment `id`,
unique `name`). -/
structure SourceRow where
  id : Nat
  name : String
deriving Repr, DecidableEq

/-- A row of the `TwitterTweet` table. -/
structure TweetRow where
  id : String
  text : String
  created_at : Int
  author_id : String
  source_id : Option Nat
  in_reply_to_user_id : Option String
deriving Repr, DecidableEq

/-- A row of the `TwitterHashtag` table (auto-increment `id`, unique
`tag`). -/
structure HashtagRow where
  id : Nat
  tag : String
deriving Repr, DecidableEq

/-- A row of the `TwitterTweetHashtagEntity` table; the annotation range
is the half-open interval `[start, stop)` and `(tweet_id, start, stop)`
is unique.  (The schema calls the upper bound `end`, a reserved word
here.)  The auto-increment surrogate `id` column carries no information
used anywhere and is elided. -/
structure HashtagEntityRow where
  tweet_id : String
  start : Nat
  stop : Nat
  tag_id : Nat
deriving Repr, DecidableEq

/-- A row of the `TwitterTweetMentionEntity` table
(`(tweet_id, start, stop)` unique; surrogate id elided). -/
structure MentionEntityRow where
  tweet_id : String
  start : Nat
  stop : Nat
  username : String
deriving Repr, DecidableEq

/-- A row of the `TwitterTweetUrlEntity` table
(`(tweet_id, start, stop)` unique; surrogate id elided). -/
structure UrlEntityRow where
  tweet_id : String
  start : Nat
  stop : Nat
  url : String
  expanded_url : Option String
  display_url : Option String
deriving Repr, DecidableEq

/-- A row of the `TwitterMedia` table (`media_key` primary key;
`file_id` references `LocalFile.sha256`, a byte buffer modelled as a
natural number). -/
structure MediaRow where
  media_key : String
  mtype : String
  url : String
  tweet_id : String
  file_id : Nat
deriving Repr, DecidableEq

/-- A row of the `LocalFile` table (`sha256` primary key, modelled as a
natural number; extension and MIME type deduplicated through their own
lookup tables). -/
structure LocalFileRow where
  sha256 : Nat
  created_at : Int
  size : Nat
  file_extension_id : Nat
  mime_id : Nat
deriving Repr, DecidableEq

/-- A row of the `FileExtension` table (auto-increment `id`, unique
`ext`). -/
structure ExtRow where
  id : Nat
  ext : String
deriving Repr, DecidableEq

/-- A row of the `Mime` table (auto-increment `id`, unique `name`). -/
structure MimeRow where
  id : Nat
  name : String
deriving Repr, DecidableEq

/-- A row of the permanent `TwitterLike` ledger (auto-increment `index`
primary key; `(user_id, tweet_id)` unique).  The position of a row in
the table list is its insertion order, which the auto-increment `index`
mirrors. -/
structure LikeRow where
  index : Nat
  user_id : String
  tweet_id : String
deriving Repr, DecidableEq

/-- A row of the `TwitterLikeStaging` table (auto-increment `index`
primary key; `(user_id, tweet_id, job_id)` unique). -/
structure StagingRow where
  index : Nat
  user_id : String
  tweet_id : String
  job_id : Nat
deriving Repr, DecidableEq

/-- The deserialised `args` JSON of a `USER_LIKES_DOWNLOAD` job:
`{user, sessionId, paginationToken?}`.  The user payload is represented
by its id. -/
structure JobArgsRec where
  userId : String
  sessionId : String
  paginationToken : Option String
deriving Repr, DecidableEq

/-- A row of the `Job` table (auto-increment `id`; `args` stored
structurally instead of as a JSON string). -/
structure JobRow where
  id : Nat
  jtype : String
  args : JobArgsRec
deriving Repr, DecidableEq

/-- The database: one list per table, in insertion (rowid) order,
plus the auto-increment counters. -/
structure DB where
  users : List UserRow
  sources : List SourceRow
  tweets : List TweetRow
  hashtags : List HashtagRow
  hashtagEntities : List HashtagEntityRow
  mentionEntities : List MentionEntityRow
  urlEntities : List UrlEntityRow
  media : List MediaRow
  localFiles : List LocalFileRow
  fileExts : List ExtRow
  mimes : List MimeRow
  likes : List LikeRow
  likeStaging : List StagingRow
  jobs : List JobRow
  nextSourceId : Nat
  nextHashtagId : Nat
  nextExtId : Nat
  nextMimeId : Nat
  nextLikeIndex : Nat
  nextStagingIndex : Nat
deriving Repr, DecidableEq

/-- The empty database. -/
def DB.empty : DB :=
  ⟨[], [], [], [], [], [], [], [], [], [], [], [], [], [], 0, 0, 0, 0, 0, 0⟩

/-! ## Transactions

`prisma.$transaction(ops)` executes the queries sequentially and commits
them atomically; any failing query rolls the whole batch back.  An
operation is a partial database transformer (`none` models a thrown
Prisma error, e.g. `update` on a missing row or `connect` to a missing
row). -/

/-- A single Prisma query inside a transaction. -/
def Op : Type := DB → Option DB

/-- Sequential execution of a transaction's queries. -/
def applyTx (ops : List Op) (db : DB) : Option DB :=
  ops.foldlM (fun d op => op d) db

/-- The database states observable around an atomic
`prisma.$transaction(ops)` call: the state before it, and — only if
every query succeeded — the fully committed state.  No intermediate
state is ever visible (Prisma/SQLite transaction atomicity). -/
def txObservable (ops : List Op) (db : DB) : List DB :=
  match applyTx ops db with
  | some db2 => [db, db2]
  | none => [db]

/-! ## TwitterImporter: like staging and the permanent ledger -/

/-- Method `TwitterImporter.stageLikes` issues one
`twitterLikeStaging.upsert({where: {user_id_tweet_id_job_id}, create,
update: {}})` per tweet id.  This is the effect of a single such
upsert: insert a fresh auto-increment row at the end of the table, or
leave the existing row alone. -/
def stageLikeOp (jobId : Nat) (uid tid : String) (db : DB) : DB :=
  if db.likeStaging.any
      (fun r => r.user_id = uid ∧ r.tweet_id = tid ∧ r.job_id = jobId) then
    db
  else
    { db with
      likeStaging :=
        db.likeStaging ++ [⟨db.nextStagingIndex, uid, tid, jobId⟩],
      nextStagingIndex := db.nextStagingIndex + 1 }

/-- Operation `stageLikes(job, user, tweetIds)` applied as a whole (the upserts
run in the order of `tweetIds`, which the caller passes
newest-to-oldest). -/
def stageLikes (jobId : Nat) (uid : String) (tweetIds : List String)
    (db : DB) : DB :=
  tweetIds.foldl (fun d tid => stageLikeOp jobId uid tid d) db

/-- Insertion of a staging row into a list sorted by descending
`index`; models one step of the JavaScript stable sort with comparator
`(a, b) => b.index - a.index`. -/
def insertDescStaging (r : StagingRow) : List StagingRow → List StagingRow
  | [] => [r]
  | x :: xs =>
    if r.index > x.index then r :: x :: xs
    else x :: insertDescStaging r xs

/-- Stable sort by descending `index`
(`sort((a, b) => b.index - a.index)`). -/
def sortDescStaging : List StagingRow → List StagingRow
  | [] => []
  | x :: xs => insertDescStaging x (sortDescStaging xs)

/-- Method `TwitterImporter.getStagedLikes(job)`:
`findMany({where: {job: {id}}, orderBy: {index: 'desc'}})`. -/
def getStagedLikes (jobId : Nat) (db : DB) : List StagingRow :=
  sortDescStaging (db.likeStaging.filter (fun r => r.job_id = jobId))

/-- Method `TwitterImporter.deleteStagedLikes(stagedLikes)`:
`deleteMany({where: {index: {in: stagedLikes.map(index)}}})`. -/
def deleteStagedLikes (stagedLikes : List StagingRow) (db : DB) : DB :=
  { db with
    likeStaging :=
      db.likeStaging.filter
        (fun r => ¬ (stagedLikes.map (fun s => s.index)).contains r.index) }

/-- One `twitterLike.upsert({where: {user_id_tweet_id}, create,
update: {}})` issued by `TwitterImporter.createLikes`: append a fresh
auto-increment ledger row, or leave the existing `(user, tweet)` row —
and in particular its `index` — untouched. -/
def likeUpsertOp (uid tid : String) (db : DB) : DB :=
  if db.likes.any (fun r => r.user_id = uid ∧ r.tweet_id = tid) then
    db
  else
    { db with
      likes := db.likes ++ [⟨db.nextLikeIndex, uid, tid⟩],
      nextLikeIndex := db.nextLikeIndex + 1 }

/-- Method `TwitterImporter.createLikes(stagedLikes)`: sort the staged likes
by descending staging `index`
(`slice().sort((a, b) => b.index - a.index)`) and upsert a permanent
`TwitterLike` for each, in that order.  The result is the list of
queries handed to the caller's transaction. -/
def createLikes (stagedLikes : List StagingRow) : List (DB → DB) :=
  (sortDescStaging stagedLikes).map
    (fun like => likeUpsertOp like.user_id like.tweet_id)

/-- Sequential application of the `createLikes` upserts. -/
def runLikeOps (ops : List (DB → DB)) (db : DB) : DB :=
  ops.foldl (fun d op => op d) db

/-- The promotion transaction run by
`JobManager.downloadUserLikesJob` after pagination is exhausted:
`$transaction([...createLikes(stagedLikes),
deleteStagedLikes(stagedLikes)])` with
`stagedLikes = getStagedLikes(job)`. -/
def promoteTx (jobId : Nat) (db : DB) : List Op :=
  let stagedLikes := getStagedLikes jobId db
  (createLikes stagedLikes).map (fun op => fun d => some (op d)) ++
    [fun d => some (deleteStagedLikes stagedLikes d)]

/-- End-to-end promotion: read the staged likes, then atomically insert
them into the ledger and delete them from staging.  All queries in the
promotion transaction are total, so the commit always succeeds. -/
def promote (jobId : Nat) (db : DB) : DB :=
  let stagedLikes := getStagedLikes jobId db
  deleteStagedLikes stagedLikes
    (runLikeOps (createLikes stagedLikes) db)

/-- Projection of the ledger to its `(user, tweet)` pairs in insertion
order. -/
def likePairs (db : DB) : List (String × String) :=
  db.likes.map (fun r => (r.user_id, r.tweet_id))

/-- The staging rows produced by staging `ts` (in order) for
`(jobId, uid)` starting at auto-increment value `n`. -/
def stagedRows (jobId : Nat) (uid : String) : List String → Nat → List StagingRow
  | [], _ => []
  | t :: ts, n => ⟨n, uid, t, jobId⟩ :: stagedRows jobId uid ts (n + 1)

/-! ### Basic lemmas about staging and the ledger -/

theorem stageLikeOp_of_fresh {jobId : Nat} {uid tid : String} {db : DB}
    (h : ∀ r ∈ db.likeStaging,
      ¬(r.user_id = uid ∧ r.tweet_id = tid ∧ r.job_id = jobId)) :
    stageLikeOp jobId uid tid db =
      { db with
        likeStaging := db.likeStaging ++ [⟨db.nextStagingIndex, uid, tid, jobId⟩],
        nextStagingIndex := db.nextStagingIndex + 1 } := by
  unfold stageLikeOp
  rw [if_neg]
  simp only [List.any_eq_true, decide_eq_true_eq, not_exists]
  intro r hc
  exact h r hc.1 hc.2

theorem stagedRows_index_le {jobId : Nat} {uid : String} :
    ∀ (ts : List String) (n : Nat) (r : StagingRow),
      r ∈ stagedRows jobId uid ts n → n ≤ r.index
  | [], _, _, h => by simp [stagedRows] at h
  | t :: ts, n, r, h => by
    simp only [stagedRows, List.mem_cons] at h
    rcases h with h | h
    · subst h; exact Nat.le_refl n
    · exact Nat.le_of_succ_le (stagedRows_index_le ts (n + 1) r h)

theorem stagedRows_pairwise {jobId : Nat} {uid : String} :
    ∀ (ts : List String) (n : Nat),
      (stagedRows jobId uid ts n).Pairwise (fun a b => a.index < b.index)
  | [], _ => List.Pairwise.nil
  | t :: ts, n => by
    simp only [stagedRows]
    refine List.Pairwise.cons ?_ (stagedRows_pairwise ts (n + 1))
    intro r hr
    exact Nat.lt_of_lt_of_le (Nat.lt_succ_self n) (stagedRows_index_le ts (n + 1) r hr)

theorem stagedRows_job {jobId : Nat} {uid : String} :
    ∀ (ts : List String) (n : Nat) (r : StagingRow),
      r ∈ stagedRows jobId uid ts n → r.job_id = jobId ∧ r.user_id = uid
  | [], _, _, h => by simp [stagedRows] at h
  | t :: ts, n, r, h => by
    simp only [stagedRows, List.mem_cons] at h
    rcases h with h | h
    · subst h; exact ⟨rfl, rfl⟩
    · exact stagedRows_job ts (n + 1) r h

theorem stagedRows_map_pair {jobId : Nat} {uid : String} :
    ∀ (ts : List String) (n : Nat),
      (stagedRows jobId uid ts n).map (fun r => (r.user_id, r.tweet_id)) =
        ts.map (fun t => (uid, t))
  | [], _ => rfl
  | t :: ts, n => by
    simp only [stagedRows, List.map_cons]
    rw [stagedRows_map_pair ts (n + 1)]

/-- Staging a duplicate-free batch of fresh tweet ids appends exactly
one row per id, in order, with consecutive auto-increment indices; no
other table is touched. -/
theorem stageLikes_spec {jobId : Nat} {uid : String} :
    ∀ (ts : List String) (db : DB),
      (∀ t ∈ ts, ∀ r ∈ db.likeStaging,
        ¬(r.user_id = uid ∧ r.tweet_id = t ∧ r.job_id = jobId)) →
      ts.Nodup →
      (stageLikes jobId uid ts db).likeStaging =
          db.likeStaging ++ stagedRows jobId uid ts db.nextStagingIndex ∧
        (stageLikes jobId uid ts db).nextStagingIndex =
          db.nextStagingIndex + ts.length ∧
        (stageLikes jobId uid ts db).likes = db.likes ∧
        (stageLikes jobId uid ts db).nextLikeIndex = db.nextLikeIndex
  | [], db, _, _ => by simp [stageLikes, stagedRows]
  | t :: ts, db, hfresh, hnd => by
    have hstep := @stageLikeOp_of_fresh jobId uid t db
      (fun r hr => hfresh t (List.mem_cons_self t ts) r hr)
    have hnd2 := hnd
    rw [List.nodup_cons] at hnd2
    obtain ⟨hnotmem, hndts⟩ := hnd2
    have hrec := stageLikes_spec ts (stageLikeOp jobId uid t db) (by
      intro t2 ht2 r hr
      rw [hstep] at hr
      simp only [List.mem_append, List.mem_singleton] at hr
      rcases hr with hr | hr
      · exact hfresh t2 (List.mem_cons_of_mem t ht2) r hr
      · subst hr
        intro hc
        have heq : t = t2 := hc.2.1
        exact hnotmem (heq.symm ▸ ht2)) hndts
    unfold stageLikes at hrec ⊢
    simp only [List.foldl_cons]
    refine ⟨?_, ?_, ?_, ?_⟩
    · rw [hrec.1, hstep]
      simp [stagedRows, List.append_assoc]
    · rw [hrec.2.1, hstep]
      simp only [List.length_cons]
      omega
    · rw [hrec.2.2.1, hstep]
    · rw [hrec.2.2.2, hstep]

/-- Inserting a row whose index is strictly below everything in an
already-sorted-descending list sends it to the end. -/
theorem insertDescStaging_of_lt {x : StagingRow} :
    ∀ {m : List StagingRow}, (∀ y ∈ m, x.index < y.index) →
      insertDescStaging x m = m ++ [x]
  | [], _ => rfl
  | y :: ys, h => by
    unfold insertDescStaging
    rw [if_neg, insertDescStaging_of_lt (fun z hz => h z (List.mem_cons_of_mem y hz))]
    · rfl
    · exact Nat.not_lt.mpr (Nat.le_of_lt (h y (List.mem_cons_self y ys)))

/-- Sorting a list whose indices are strictly increasing by descending
index reverses it. -/
theorem sortDescStaging_of_increasing :
    ∀ {l : List StagingRow}, l.Pairwise (fun a b => a.index < b.index) →
      sortDescStaging l = l.reverse
  | [], _ => rfl
  | x :: xs, h => by
    rw [List.pairwise_cons] at h
    unfold sortDescStaging
    rw [sortDescStaging_of_increasing h.2, insertDescStaging_of_lt]
    · simp
    · intro y hy
      exact h.1 y (List.mem_reverse.mp hy)

/-- Sorting an already strictly-descending list by descending index is
the identity. -/
theorem sortDescStaging_of_decreasing :
    ∀ {l : List StagingRow}, l.Pairwise (fun a b => b.index < a.index) →
      sortDescStaging l = l
  | [], _ => rfl
  | x :: xs, h => by
    rw [List.pairwise_cons] at h
    unfold sortDescStaging
    rw [sortDescStaging_of_decreasing h.2]
    cases xs with
    | nil => rfl
    | cons y ys =>
      unfold insertDescStaging
      rw [if_pos]
      exact h.1 y (List.mem_cons_self y ys)

/-- Upserting a batch of fresh, duplicate-free likes appends their
pairs to the ledger in batch order. -/
theorem runLikeOps_pairs :
    ∀ (rows : List StagingRow) (db : DB),
      (∀ r ∈ rows, (r.user_id, r.tweet_id) ∉ likePairs db) →
      (rows.map (fun r => (r.user_id, r.tweet_id))).Nodup →
      likePairs (runLikeOps
          (rows.map (fun r => likeUpsertOp r.user_id r.tweet_id)) db) =
        likePairs db ++ rows.map (fun r => (r.user_id, r.tweet_id))
  | [], db, _, _ => by simp [runLikeOps]
  | r :: rows, db, hfresh, hnd => by
    have hr0 : (r.user_id, r.tweet_id) ∉ likePairs db :=
      hfresh r (List.mem_cons_self r rows)
    have hstep : likeUpsertOp r.user_id r.tweet_id db =
        { db with
          likes := db.likes ++ [⟨db.nextLikeIndex, r.user_id, r.tweet_id⟩],
          nextLikeIndex := db.nextLikeIndex + 1 } := by
      unfold likeUpsertOp
      rw [if_neg]
      simp only [List.any_eq_true, decide_eq_true_eq, not_exists]
      intro x hc
      exact hr0 (by
        simp only [likePairs, List.mem_map]
        exact ⟨x, hc.1, by rw [hc.2.1, hc.2.2]⟩)
    simp only [List.map_cons] at hnd
    rw [List.nodup_cons] at hnd
    have hrec := runLikeOps_pairs rows (likeUpsertOp r.user_id r.tweet_id db)
      (by
        intro r2 hr2
        rw [hstep]
        simp only [likePairs, List.map_append, List.mem_append, List.map_cons,
          List.map_nil, List.mem_singleton, List.mem_map]
        intro hc
        rcases hc with hc | hc
        · exact hfresh r2 (List.mem_cons_of_mem r hr2) (by
            simp only [likePairs, List.mem_map]; exact hc)
        · exact hnd.1 (by
            rw [← hc]
            exact List.mem_map_of_mem (fun r => (r.user_id, r.tweet_id)) hr2))
      hnd.2
    simp only [List.map_cons, runLikeOps, List.foldl_cons] at hrec ⊢
    rw [hrec, hstep]
    simp [likePairs, List.append_assoc]

/-- Deleting staging rows leaves the permanent ledger untouched. -/
theorem deleteStagedLikes_likes (stagedLikes : List StagingRow) (db : DB) :
    (deleteStagedLikes stagedLikes db).likes = db.likes := rfl

/-- C1: staging rows appended page-by-page in source order (each page
newest-to-oldest, pages newest-page-first) are read back by promotion
in descending staging index and re-inserted into the permanent `Like`
ledger in that same order, so the ledger's insertion order extends
oldest-first: for staged pages `P1 ++ P2 ++ …` the new ledger suffix is
the reverse of the concatenated staging order (e.g. pages `[A,B]` then
`[C,D]` commit as `[D,C,B,A]`). -/
theorem staging_promotion_oldest_first
    (db : DB) (jobId : Nat) (uid : String) (pages : List (List String))
    (hnojob : db.likeStaging.filter (fun r => r.job_id = jobId) = [])
    (hnd : pages.flatten.Nodup)
    (hfresh : ∀ t ∈ pages.flatten, (uid, t) ∉ likePairs db) :
    likePairs (promote jobId
        (pages.foldl (fun d p => stageLikes jobId uid p d) db)) =
      likePairs db ++ (pages.flatten).reverse.map (fun t => (uid, t)) := by
  -- staging page-by-page is staging the concatenation
  have hfold : ∀ (ps : List (List String)) (d : DB),
      ps.foldl (fun d p => stageLikes jobId uid p d) d =
        stageLikes jobId uid ps.flatten d := by
    intro ps
    induction ps with
    | nil => intro d; rfl
    | cons p ps ih =>
      intro d
      rw [List.foldl_cons, ih, List.flatten_cons]
      unfold stageLikes
      rw [List.foldl_append]
  rw [hfold]
  -- no staging row of this job exists at all
  have hnorow : ∀ r ∈ db.likeStaging, r.job_id ≠ jobId := by
    intro r hr hc
    have hmem : r ∈ db.likeStaging.filter (fun r => r.job_id = jobId) := by
      rw [List.mem_filter]
      exact ⟨hr, by simp [hc]⟩
    rw [hnojob] at hmem
    exact (List.not_mem_nil r) hmem
  have hspec := @stageLikes_spec jobId uid pages.flatten db
    (fun t _ r hr hc => hnorow r hr hc.2.2) hnd
  set db1 := stageLikes jobId uid pages.flatten db with hdb1
  -- the staged rows of the job, read back in descending index order
  have hrows : db1.likeStaging.filter (fun r => r.job_id = jobId) =
      stagedRows jobId uid pages.flatten db.nextStagingIndex := by
    rw [hspec.1, List.filter_append, hnojob, List.nil_append,
      List.filter_eq_self.mpr]
    intro r hr
    simp [(stagedRows_job pages.flatten db.nextStagingIndex r hr).1]
  have hget : getStagedLikes jobId db1 =
      (stagedRows jobId uid pages.flatten db.nextStagingIndex).reverse := by
    unfold getStagedLikes
    rw [hrows, sortDescStaging_of_increasing (stagedRows_pairwise _ _)]
  -- promotion re-sorts (a no-op on the already descending list) and upserts
  have hpromote : promote jobId db1 =
      deleteStagedLikes (getStagedLikes jobId db1)
        (runLikeOps (createLikes (getStagedLikes jobId db1)) db1) := rfl
  have hdel : ∀ (s : List StagingRow) (d : DB),
      likePairs (deleteStagedLikes s d) = likePairs d := fun _ _ => rfl
  rw [hpromote, hdel, hget]
  unfold createLikes
  rw [sortDescStaging_of_decreasing (by
    rw [List.pairwise_reverse]
    exact stagedRows_pairwise _ _)]
  have hpairs : ((stagedRows jobId uid pages.flatten db.nextStagingIndex).reverse.map
      (fun r => (r.user_id, r.tweet_id))) =
      (pages.flatten).reverse.map (fun t => (uid, t)) := by
    rw [List.map_reverse, stagedRows_map_pair, List.map_reverse]
  rw [runLikeOps_pairs _ db1
    (by
      intro r hr
      have hmem : (r.user_id, r.tweet_id) ∈
          (stagedRows jobId uid pages.flatten db.nextStagingIndex).reverse.map
            (fun r => (r.user_id, r.tweet_id)) :=
        List.mem_map_of_mem _ hr
      rw [hpairs] at hmem
      simp only [List.map_reverse, List.mem_reverse, List.mem_map] at hmem
      obtain ⟨t, ht, hpair⟩ := hmem
      have hl1 : likePairs db1 = likePairs db := by
        simp only [likePairs, hspec.2.2.1]
      rw [hl1, ← hpair]
      exact hfresh t ht)
    (by
      rw [hpairs]
      simp only [List.map_reverse, List.nodup_reverse]
      exact hnd.map (fun a b h => by simpa using h))]
  rw [hpairs]
  simp only [likePairs, hspec.2.2.1]

/-- Witness for C1 at the spec's concrete example: pages `[A,B]` then
`[C,D]` staged into an empty database promote to ledger insertion order
`[D,C,B,A]`. -/
theorem staging_promotion_oldest_first_witness :
    likePairs (promote 1
        (([["A", "B"], ["C", "D"]] : List (List String)).foldl
          (fun d p => stageLikes 1 "u" p d) DB.empty)) =
      [("u", "D"), ("u", "C"), ("u", "B"), ("u", "A")] := by
  have h := staging_promotion_oldest_first DB.empty 1 "u"
    [["A", "B"], ["C", "D"]]
    (by rfl) (by decide) (by intro t _ hc; simp [likePairs, DB.empty] at hc)
  simpa using h

/-! ### Lemmas about `likeUpsertOp` folds -/

theorem mem_insertDescStaging {x r : StagingRow} :
    ∀ {l : List StagingRow}, x ∈ insertDescStaging r l ↔ x = r ∨ x ∈ l
  | [] => by simp [insertDescStaging]
  | y :: ys => by
    unfold insertDescStaging
    split
    · simp
    · simp only [List.mem_cons, mem_insertDescStaging (l := ys)]
      tauto

theorem mem_sortDescStaging {x : StagingRow} :
    ∀ {l : List StagingRow}, x ∈ sortDescStaging l ↔ x ∈ l
  | [] => Iff.rfl
  | y :: ys => by
    unfold sortDescStaging
    rw [mem_insertDescStaging, mem_sortDescStaging (l := ys)]
    simp

/-- A `TwitterLike` upsert with an empty `update` leaves an existing
`(user, tweet)` row — and the whole database — untouched. -/
theorem likeUpsertOp_of_mem {uid tid : String} {db : DB}
    (h : (uid, tid) ∈ likePairs db) : likeUpsertOp uid tid db = db := by
  unfold likeUpsertOp
  rw [if_pos]
  simp only [likePairs, List.mem_map] at h
  obtain ⟨r, hr, hpair⟩ := h
  simp only [List.any_eq_true, decide_eq_true_eq]
  exact ⟨r, hr, by injection hpair with h1 h2; exact ⟨h1, h2⟩⟩

theorem runLikeOps_likes_extend :
    ∀ (rows : List StagingRow) (db : DB),
      ∃ suffix,
        (runLikeOps (rows.map (fun r => likeUpsertOp r.user_id r.tweet_id)) db).likes =
          db.likes ++ suffix
  | [], db => ⟨[], by simp [runLikeOps]⟩
  | r :: rows, db => by
    simp only [List.map_cons, runLikeOps, List.foldl_cons]
    obtain ⟨suffix, hsuf⟩ :=
      runLikeOps_likes_extend rows (likeUpsertOp r.user_id r.tweet_id db)
    unfold runLikeOps at hsuf
    unfold likeUpsertOp at hsuf ⊢
    by_cases hc :
        (db.likes.any fun x =>
          decide (x.user_id = r.user_id ∧ x.tweet_id = r.tweet_id)) = true
    · rw [if_pos hc] at hsuf ⊢
      exact ⟨suffix, hsuf⟩
    · rw [if_neg hc] at hsuf ⊢
      exact ⟨⟨db.nextLikeIndex, r.user_id, r.tweet_id⟩ :: suffix, by
        rw [hsuf]; simp⟩

theorem runLikeOps_pair_monotone {p : String × String} :
    ∀ (rows : List StagingRow) (db : DB), p ∈ likePairs db →
      p ∈ likePairs (runLikeOps
        (rows.map (fun r => likeUpsertOp r.user_id r.tweet_id)) db)
  | [], _, h => h
  | r :: rows, db, h => by
    simp only [List.map_cons, runLikeOps, List.foldl_cons]
    refine runLikeOps_pair_monotone rows _ ?_
    unfold likeUpsertOp
    split
    · exact h
    · simp only [likePairs, List.map_append, List.mem_append]
      exact Or.inl h

theorem runLikeOps_pair_mem :
    ∀ (rows : List StagingRow) (db : DB) (r : StagingRow), r ∈ rows →
      (r.user_id, r.tweet_id) ∈ likePairs (runLikeOps
        (rows.map (fun r => likeUpsertOp r.user_id r.tweet_id)) db)
  | [], _, _, h => absurd h (List.not_mem_nil _)
  | x :: rows, db, r, h => by
    simp only [List.map_cons, runLikeOps, List.foldl_cons]
    rcases List.mem_cons.mp h with h | h
    · subst h
      refine runLikeOps_pair_monotone rows _ ?_
      unfold likeUpsertOp
      split
      · next hc =>
        simp only [List.any_eq_true, Bool.and_eq_true, decide_eq_true_eq] at hc
        obtain ⟨x, hx, h1, h2⟩ := hc
        simp only [likePairs, List.mem_map]
        exact ⟨x, hx, by rw [h1, h2]⟩
      · simp [likePairs]
    · exact runLikeOps_pair_mem rows _ r h

theorem runLikeOps_likeStaging :
    ∀ (rows : List StagingRow) (db : DB),
      (runLikeOps (rows.map (fun r => likeUpsertOp r.user_id r.tweet_id)) db).likeStaging =
        db.likeStaging
  | [], _ => rfl
  | r :: rows, db => by
    simp only [List.map_cons, runLikeOps, List.foldl_cons]
    have h := runLikeOps_likeStaging rows (likeUpsertOp r.user_id r.tweet_id db)
    unfold runLikeOps at h
    rw [h]
    unfold likeUpsertOp
    split <;> rfl

/-- C10: `createLikes` upserts each staged like with an empty `update`,
so ledger rows whose `(user, tweet)` pair already exists — including
their auto-increment insertion index, i.e. their chronological position
— are left byte-for-byte unchanged and no duplicate row is created: the
ledger only ever grows by a suffix, and if every staged pair is already
promoted the whole database is unchanged. -/
theorem createLikes_idempotent_preserves_order
    (stagedLikes : List StagingRow) (db : DB) :
    (∃ suffix,
      (runLikeOps (createLikes stagedLikes) db).likes = db.likes ++ suffix) ∧
    ((∀ r ∈ stagedLikes, (r.user_id, r.tweet_id) ∈ likePairs db) →
      runLikeOps (createLikes stagedLikes) db = db) := by
  constructor
  · exact runLikeOps_likes_extend (sortDescStaging stagedLikes) db
  · intro hall
    have hall2 : ∀ r ∈ sortDescStaging stagedLikes,
        (r.user_id, r.tweet_id) ∈ likePairs db :=
      fun r hr => hall r (mem_sortDescStaging.mp hr)
    unfold createLikes
    generalize hl : sortDescStaging stagedLikes = rows at hall2
    clear hl hall
    induction rows generalizing db with
    | nil => rfl
    | cons r rows ih =>
      simp only [List.map_cons, runLikeOps, List.foldl_cons]
      rw [likeUpsertOp_of_mem (hall2 r (List.mem_cons_self r rows))]
      exact ih db (fun x hx => hall2 x (List.mem_cons_of_mem r hx))

/-- Witness for C10: upserting an already-promoted staged like onto a
one-row ledger leaves the database unchanged and the ledger extended by
the empty suffix. -/
theorem createLikes_idempotent_preserves_order_witness :
    (∃ suffix,
      (runLikeOps (createLikes [⟨0, "u", "A", 1⟩])
          { DB.empty with likes := [⟨0, "u", "A"⟩], nextLikeIndex := 1 }).likes =
        [⟨0, "u", "A"⟩] ++ suffix) ∧
    runLikeOps (createLikes [⟨0, "u", "A", 1⟩])
        { DB.empty with likes := [⟨0, "u", "A"⟩], nextLikeIndex := 1 } =
      { DB.empty with likes := [⟨0, "u", "A"⟩], nextLikeIndex := 1 } := by
  have h := createLikes_idempotent_preserves_order [⟨0, "u", "A", 1⟩]
    { DB.empty with likes := [⟨0, "u", "A"⟩], nextLikeIndex := 1 }
  exact ⟨h.1, h.2 (by decide)⟩

/-! ### C3: promotion and staging-row deletion are one transaction -/

/-- A transaction consisting of total queries followed by one final
total query commits to the fold of all of them. -/
theorem applyTx_total (ops : List (DB → DB)) (g : DB → DB) :
    ∀ db : DB,
      applyTx (ops.map (fun op => (fun d => some (op d) : Op)) ++
        [fun d => some (g d)]) db = some (g (runLikeOps ops db)) := by
  induction ops with
  | nil => intro db; rfl
  | cons op ops ih =>
    intro db
    simpa [applyTx, runLikeOps, List.foldl_cons] using ih (op db)

theorem txObservable_promoteTx (jobId : Nat) (db : DB) :
    txObservable (promoteTx jobId db) db = [db, promote jobId db] := by
  unfold txObservable promoteTx promote
  rw [applyTx_total]

/-- C3: for a job that finished pagination, insertion of its staged
likes into the permanent ledger and deletion of those staging rows run
in one atomic `$transaction`: every observable database state is either
the pre-transaction state or the fully committed one, and in the
committed state every staged `(user, tweet)` pair is in the ledger
while no staging row of the job remains.  No state with the likes
promoted but the staging rows still present (or vice versa) is ever
observable. -/
theorem promotion_deletion_atomic (db : DB) (jobId : Nat) :
    ∀ s ∈ txObservable (promoteTx jobId db) db,
      s = db ∨
      ((∀ r ∈ getStagedLikes jobId db,
          (r.user_id, r.tweet_id) ∈ likePairs s) ∧
        s.likeStaging.filter (fun r => r.job_id = jobId) = []) := by
  intro s hs
  rw [txObservable_promoteTx] at hs
  rcases List.mem_pair.mp hs with h | h
  · exact Or.inl h
  · subst h
    refine Or.inr ⟨?_, ?_⟩
    · intro r hr
      have hmem : r ∈ sortDescStaging (getStagedLikes jobId db) :=
        mem_sortDescStaging.mpr hr
      have hpair := runLikeOps_pair_mem
        (sortDescStaging (getStagedLikes jobId db)) db r hmem
      have hlikes : likePairs (promote jobId db) =
          likePairs (runLikeOps (createLikes (getStagedLikes jobId db)) db) :=
        rfl
      rw [hlikes]
      unfold createLikes
      exact hpair
    · have hstag : (promote jobId db).likeStaging =
          db.likeStaging.filter (fun r =>
            ¬ ((getStagedLikes jobId db).map (fun s => s.index)).contains
              r.index) := by
        have h : (promote jobId db).likeStaging =
            (runLikeOps (createLikes (getStagedLikes jobId db)) db).likeStaging.filter
              (fun r =>
                ¬ ((getStagedLikes jobId db).map (fun s => s.index)).contains
                  r.index) := rfl
        rw [h]
        unfold createLikes
        rw [runLikeOps_likeStaging]
      rw [hstag, List.filter_filter, List.filter_eq_nil_iff]
      intro r hr
      simp only [Bool.and_eq_true, decide_eq_true_eq]
      rintro ⟨hjob, hnc⟩
      apply hnc
      have hin : r ∈ getStagedLikes jobId db := by
        unfold getStagedLikes
        exact mem_sortDescStaging.mpr
          (List.mem_filter.mpr ⟨hr, by simp [hjob]⟩)
      have hidx : r.index ∈ (getStagedLikes jobId db).map (fun s => s.index) :=
        List.mem_map_of_mem _ hin
      simpa using hidx

/-- Witness for C3: promoting a job with one staged like from a
concrete database lands in the committed state, which has the pair in
the ledger and no staging row left. -/
theorem promotion_deletion_atomic_witness :
    (promote 1 { DB.empty with
        likeStaging := [⟨0, "u", "A", 1⟩], nextStagingIndex := 1 }) ∈
      txObservable
        (promoteTx 1 { DB.empty with
          likeStaging := [⟨0, "u", "A", 1⟩], nextStagingIndex := 1 })
        { DB.empty with
          likeStaging := [⟨0, "u", "A", 1⟩], nextStagingIndex := 1 } ∧
    (∀ r ∈ getStagedLikes 1 { DB.empty with
        likeStaging := [⟨0, "u", "A", 1⟩], nextStagingIndex := 1 },
      (r.user_id, r.tweet_id) ∈ likePairs (promote 1 { DB.empty with
        likeStaging := [⟨0, "u", "A", 1⟩], nextStagingIndex := 1 })) ∧
    (promote 1 { DB.empty with
        likeStaging := [⟨0, "u", "A", 1⟩],
        nextStagingIndex := 1 }).likeStaging.filter
      (fun r => r.job_id = 1) = [] := by
  have hmem : (promote 1 { DB.empty with
      likeStaging := [⟨0, "u", "A", 1⟩], nextStagingIndex := 1 }) ∈
      txObservable
        (promoteTx 1 { DB.empty with
          likeStaging := [⟨0, "u", "A", 1⟩], nextStagingIndex := 1 })
        { DB.empty with
          likeStaging := [⟨0, "u", "A", 1⟩], nextStagingIndex := 1 } := by
    rw [txObservable_promoteTx]
    exact List.mem_cons_of_mem _ (List.mem_singleton.mpr rfl)
  have h := promotion_deletion_atomic
    { DB.empty with likeStaging := [⟨0, "u", "A", 1⟩], nextStagingIndex := 1 }
    1 _ hmem
  rcases h with h | h
  · exact absurd h (by decide)
  · exact ⟨hmem, h.1, h.2⟩

/-! ## TwitterImporter.createTweet

The `Tweet` value handed to `createTweet` by `TwitterService`
(validated API response), and the nested-write Prisma upsert it
issues. -/

/-- A validated API user (`TwitterService.User`). -/
structure UserIn where
  id : String
  name : String
  username : String
  created_at : Int
deriving Repr, DecidableEq

/-- A validated API media attachment (`TwitterService.Media`): the url
is the selected variant's url. -/
structure MediaIn where
  media_key : String
  mtype : String
  url : String
deriving Repr, DecidableEq

/-- A hashtag annotation of the tweet text, range `[start, stop)`. -/
structure HashtagIn where
  start : Nat
  stop : Nat
  tag : String
deriving Repr, DecidableEq

/-- A mention annotation of the tweet text. -/
structure MentionIn where
  start : Nat
  stop : Nat
  username : String
deriving Repr, DecidableEq

/-- A url annotation of the tweet text. -/
structure UrlIn where
  start : Nat
  stop : Nat
  url : String
  expanded_url : Option String
  display_url : Option String
deriving Repr, DecidableEq

/-- A validated API tweet (`TwitterService.Tweet`). -/
structure TweetIn where
  id : String
  text : String
  created_at : Int
  source : Option String
  author : UserIn
  in_reply_to_user : Option UserIn
  media : List MediaIn
  hashtags : List HashtagIn
  mentions : List MentionIn
  urls : List UrlIn
deriving Repr, DecidableEq

/-- Prisma `connectOrCreate` on `TwitterTweetSource` by its unique `name`:
returns the (possibly extended) database and the source row id. -/
def connectOrCreateSource (db : DB) (name : String) : DB × Nat :=
  match db.sources.find? (fun s => s.name = name) with
  | some s => (db, s.id)
  | none =>
    ({ db with
        sources := db.sources ++ [⟨db.nextSourceId, name⟩],
        nextSourceId := db.nextSourceId + 1 },
      db.nextSourceId)

/-- Prisma `connectOrCreate` on `TwitterUser` by its id. -/
def connectOrCreateUser (db : DB) (u : UserIn) : DB :=
  if db.users.any (fun r => r.id = u.id) then db
  else
    { db with
      users := db.users ++ [⟨u.id, u.name, u.username, u.created_at⟩] }

/-- Prisma `connectOrCreate` on `TwitterHashtag` by its unique `tag`. -/
def connectOrCreateHashtag (db : DB) (tag : String) : DB × Nat :=
  match db.hashtags.find? (fun h => h.tag = tag) with
  | some h => (db, h.id)
  | none =>
    ({ db with
        hashtags := db.hashtags ++ [⟨db.nextHashtagId, tag⟩],
        nextHashtagId := db.nextHashtagId + 1 },
      db.nextHashtagId)

/-- The `update: {source}` effect of the tweet upsert: point the
existing `TwitterTweet` row's `source_id` at the connected source. -/
def setTweetSource (db : DB) (tid : String) (sid : Nat) : DB :=
  { db with
    tweets := db.tweets.map
      (fun r => if r.id = tid then { r with source_id := some sid } else r) }

/-- One nested `media.connectOrCreate` entry: connect an existing
`TwitterMedia` by `media_key` (re-pointing its tweet), or create it
with `file: {connect: {sha256}}` — which fails if no such `LocalFile`
row exists. -/
def mediaConnectOrCreate (tid : String) (m : MediaIn) (fid : Nat)
    (db : DB) : Option DB :=
  if db.media.any (fun r => r.media_key = m.media_key) then
    some { db with
      media := db.media.map
        (fun r => if r.media_key = m.media_key then { r with tweet_id := tid }
          else r) }
  else if db.localFiles.any (fun f => f.sha256 = fid) then
    some { db with media := db.media ++ [⟨m.media_key, m.mtype, m.url, tid, fid⟩] }
  else none

/-- One nested `hashtags.connectOrCreate` entry, keyed
`(tweet_id, start, end)`; the tag itself is `connectOrCreate`d by
text. -/
def hashtagConnectOrCreate (tid : String) (h : HashtagIn) (db : DB) : DB :=
  if db.hashtagEntities.any
      (fun r => r.tweet_id = tid ∧ r.start = h.start ∧ r.stop = h.stop) then
    db
  else
    let q := connectOrCreateHashtag db h.tag
    { q.1 with
      hashtagEntities := q.1.hashtagEntities ++ [⟨tid, h.start, h.stop, q.2⟩] }

/-- One nested `mentions.connectOrCreate` entry, keyed
`(tweet_id, start, end)`. -/
def mentionConnectOrCreate (tid : String) (m : MentionIn) (db : DB) : DB :=
  if db.mentionEntities.any
      (fun r => r.tweet_id = tid ∧ r.start = m.start ∧ r.stop = m.stop) then
    db
  else
    { db with
      mentionEntities := db.mentionEntities ++ [⟨tid, m.start, m.stop, m.username⟩] }

/-- One nested `urls.connectOrCreate` entry, keyed
`(tweet_id, start, end)`. -/
def urlConnectOrCreate (tid : String) (u : UrlIn) (db : DB) : DB :=
  if db.urlEntities.any
      (fun r => r.tweet_id = tid ∧ r.start = u.start ∧ r.stop = u.stop) then
    db
  else
    { db with
      urlEntities :=
        db.urlEntities ++ [⟨tid, u.start, u.stop, u.url, u.expanded_url, u.display_url⟩] }

/-- The nested media writes, in attachment order. -/
def mediaFold (tid : String) (ms : List (MediaIn × Nat)) (db : DB) : Option DB :=
  ms.foldlM (fun d p => mediaConnectOrCreate tid p.1 p.2 d) db

/-- The `source: {connectOrCreate}` argument of the upsert: absent when
the tweet carries no source, otherwise the connected-or-created source
row's id. -/
def sourceStep (t : TweetIn) (db : DB) : DB × Option Nat :=
  match t.source with
  | none => (db, none)
  | some name =>
    ((connectOrCreateSource db name).1, some (connectOrCreateSource db name).2)

/-- The `in_reply_to_user: {connectOrCreate: tweet.in_reply_to_user &&
{...}}` argument: skipped when the tweet is not a reply. -/
def replyStep (t : TweetIn) (db : DB) : DB :=
  match t.in_reply_to_user with
  | none => db
  | some u => connectOrCreateUser db u

/-- Insertion of the `TwitterTweet` row itself. -/
def insertTweetRow (t : TweetIn) (sid : Option Nat) (db : DB) : DB :=
  { db with
    tweets := db.tweets ++
      [⟨t.id, t.text, t.created_at, t.author.id, sid,
        t.in_reply_to_user.map (fun u => u.id)⟩] }

/-- The `create` branch of the tweet upsert: connect-or-create the
source, reply-target user and author; insert the tweet row; then run
the nested media, hashtag, mention and url `connectOrCreate` writes. -/
def createTweetCreate (t : TweetIn) (mediaArgs : List (MediaIn × Nat))
    (db : DB) : Option DB :=
  (mediaFold t.id mediaArgs
      (insertTweetRow t (sourceStep t db).2
        (connectOrCreateUser (replyStep t (sourceStep t db).1) t.author))).map
    (fun db4 =>
      t.urls.foldl (fun d u => urlConnectOrCreate t.id u d)
        (t.mentions.foldl (fun d m => mentionConnectOrCreate t.id m d)
          (t.hashtags.foldl (fun d h => hashtagConnectOrCreate t.id h d) db4)))

/-- Method `TwitterImporter.createTweet(tweet, mediaKeyToFileIdMap)`:
`twitterTweet.upsert({where: {id}, create: {...nested connectOrCreates},
update: {source}})`.  Building the query object maps over
`tweet.attachments.media` first and throws when the map lacks a
`LocalFile` id for some media key, before either branch runs (`none`).
On the update branch only the source connection is (re)applied; on the
create branch the tweet row is inserted together with its author,
optional reply-target user, optional source, media, and
hashtag/mention/url annotation rows, each `connectOrCreate`d against
its natural unique key. -/
def createTweet (t : TweetIn) (fileMap : String → Option Nat) (db : DB) :
    Option DB :=
  (t.media.mapM
      (fun m => (fileMap m.media_key).map (fun fid => (m, fid)))).bind
    (fun mediaArgs =>
      if db.tweets.any (fun r => r.id = t.id) then
        match t.source with
        | none => some db
        | some name =>
          some (setTweetSource (connectOrCreateSource db name).1 t.id
            (connectOrCreateSource db name).2)
      else
        createTweetCreate t mediaArgs db)

/-- The unique-key invariants SQLite enforces on the tables touched by
`createTweet`: tweet ids, media keys, and annotation
`(tweet_id, start, end)` triples are duplicate-free. -/
structure WF (db : DB) : Prop where
  tweets_nodup : (db.tweets.map (fun r => r.id)).Nodup
  media_nodup : (db.media.map (fun r => r.media_key)).Nodup
  hashtagE_nodup :
    (db.hashtagEntities.map (fun r => (r.tweet_id, r.start, r.stop))).Nodup
  mentionE_nodup :
    (db.mentionEntities.map (fun r => (r.tweet_id, r.start, r.stop))).Nodup
  urlE_nodup :
    (db.urlEntities.map (fun r => (r.tweet_id, r.start, r.stop))).Nodup

/-- In a list whose keys are duplicate-free, a present key selects
exactly one row. -/
theorem length_filter_key_eq_one {α κ : Type _} [DecidableEq κ]
    (key : α → κ) (k : κ) :
    ∀ (l : List α), (l.map key).Nodup → (∃ r ∈ l, key r = k) →
      (l.filter (fun r => key r = k)).length = 1
  | [], _, hmem => by simp at hmem
  | x :: l, hnd, hmem => by
    simp only [List.map_cons, List.nodup_cons] at hnd
    by_cases hx : key x = k
    · have hnone : l.filter (fun r => key r = k) = [] := by
        rw [List.filter_eq_nil_iff]
        intro a ha
        simp only [decide_eq_true_eq]
        intro hc
        exact hnd.1 (hx ▸ hc ▸ List.mem_map_of_mem key ha)
      simp [List.filter_cons, hx, hnone]
    · have hmem2 : ∃ r ∈ l, key r = k := by
        rcases hmem with ⟨r, hr, hk⟩
        rcases List.mem_cons.mp hr with hr | hr
        · exact absurd (hr ▸ hk) hx
        · exact ⟨r, hr, hk⟩
      simp only [List.filter_cons, hx]
      simpa using length_filter_key_eq_one key k l hnd.2 hmem2

/-! ### Pipeline-step preservation lemmas -/

theorem connectOrCreateSource_sub (db : DB) (name : String) :
    ((connectOrCreateSource db name).1).tweets = db.tweets ∧
    ((connectOrCreateSource db name).1).users = db.users ∧
    ((connectOrCreateSource db name).1).media = db.media ∧
    ((connectOrCreateSource db name).1).localFiles = db.localFiles ∧
    ((connectOrCreateSource db name).1).hashtagEntities = db.hashtagEntities ∧
    ((connectOrCreateSource db name).1).mentionEntities = db.mentionEntities ∧
    ((connectOrCreateSource db name).1).urlEntities = db.urlEntities := by
  unfold connectOrCreateSource
  cases db.sources.find? (fun s => s.name = name) <;> simp

/-- After connecting-or-creating a source, the first row named `name`
is exactly the returned id's row. -/
theorem connectOrCreateSource_find (db : DB) (name : String) :
    ((connectOrCreateSource db name).1).sources.find?
        (fun s => s.name = name) =
      some ⟨(connectOrCreateSource db name).2, name⟩ := by
  unfold connectOrCreateSource
  cases hf : db.sources.find? (fun s => s.name = name) with
  | some s =>
    have hs := List.find?_some hf
    simp only [decide_eq_true_eq] at hs
    obtain ⟨sid, sname⟩ := s
    simp only at hs
    subst hs
    simpa using hf
  | none =>
    simp only
    rw [List.find?_append, hf]
    simp

/-- Connecting-or-creating the same source name against any database
with the same `sources` table finds the same row and changes nothing. -/
theorem connectOrCreateSource_stable {db db2 : DB} {name : String}
    (h : db2.sources = ((connectOrCreateSource db name).1).sources) :
    connectOrCreateSource db2 name = (db2, (connectOrCreateSource db name).2) := by
  have h2 := connectOrCreateSource_find db name
  rw [← h] at h2
  conv_lhs => unfold connectOrCreateSource
  rw [h2]

theorem connectOrCreateUser_sub (db : DB) (u : UserIn) :
    (connectOrCreateUser db u).tweets = db.tweets ∧
    (connectOrCreateUser db u).sources = db.sources ∧
    (connectOrCreateUser db u).media = db.media ∧
    (connectOrCreateUser db u).localFiles = db.localFiles ∧
    (connectOrCreateUser db u).hashtagEntities = db.hashtagEntities ∧
    (connectOrCreateUser db u).mentionEntities = db.mentionEntities ∧
    (connectOrCreateUser db u).urlEntities = db.urlEntities := by
  unfold connectOrCreateUser
  split <;> simp

theorem setTweetSource_sub (db : DB) (tid : String) (sid : Nat) :
    (setTweetSource db tid sid).sources = db.sources ∧
    (setTweetSource db tid sid).users = db.users ∧
    (setTweetSource db tid sid).media = db.media ∧
    (setTweetSource db tid sid).localFiles = db.localFiles ∧
    (setTweetSource db tid sid).hashtagEntities = db.hashtagEntities ∧
    (setTweetSource db tid sid).mentionEntities = db.mentionEntities ∧
    (setTweetSource db tid sid).urlEntities = db.urlEntities := by
  unfold setTweetSource
  simp

theorem setTweetSource_ids (db : DB) (tid : String) (sid : Nat) :
    (setTweetSource db tid sid).tweets.map (fun r => r.id) =
      db.tweets.map (fun r => r.id) := by
  unfold setTweetSource
  simp only [List.map_map]
  refine List.map_congr_left ?_
  intro r _
  by_cases h : r.id = tid <;> simp [h]

theorem setTweetSource_post (db : DB) (tid : String) (sid : Nat) :
    ∀ r ∈ (setTweetSource db tid sid).tweets,
      r.id = tid → r.source_id = some sid := by
  unfold setTweetSource
  intro r hr hid
  simp only [List.mem_map] at hr
  obtain ⟨x, _, hx⟩ := hr
  by_cases h : x.id = tid
  · rw [if_pos h] at hx
    rw [← hx]
  · rw [if_neg h] at hx
    exact absurd (hx ▸ hid) h

theorem connectOrCreateHashtag_sub (db : DB) (tag : String) :
    ((connectOrCreateHashtag db tag).1).tweets = db.tweets ∧
    ((connectOrCreateHashtag db tag).1).sources = db.sources ∧
    ((connectOrCreateHashtag db tag).1).users = db.users ∧
    ((connectOrCreateHashtag db tag).1).media = db.media ∧
    ((connectOrCreateHashtag db tag).1).localFiles = db.localFiles ∧
    ((connectOrCreateHashtag db tag).1).hashtagEntities = db.hashtagEntities ∧
    ((connectOrCreateHashtag db tag).1).mentionEntities = db.mentionEntities ∧
    ((connectOrCreateHashtag db tag).1).urlEntities = db.urlEntities := by
  unfold connectOrCreateHashtag
  cases db.hashtags.find? (fun h => h.tag = tag) <;> simp

theorem mediaConnectOrCreate_spec {tid : String} {m : MediaIn} {fid : Nat}
    {db db2 : DB} (h : mediaConnectOrCreate tid m fid db = some db2) :
    db2.tweets = db.tweets ∧
    db2.sources = db.sources ∧
    db2.users = db.users ∧
    db2.localFiles = db.localFiles ∧
    db2.hashtagEntities = db.hashtagEntities ∧
    db2.mentionEntities = db.mentionEntities ∧
    db2.urlEntities = db.urlEntities ∧
    ((db.media.map (fun r => r.media_key)).Nodup →
      (db2.media.map (fun r => r.media_key)).Nodup) := by
  unfold mediaConnectOrCreate at h
  split at h
  · next hc =>
    obtain rfl : _ = db2 := Option.some.inj h
    refine ⟨rfl, rfl, rfl, rfl, rfl, rfl, rfl, ?_⟩
    intro hnd
    simp only [List.map_map]
    have hkeys : (fun (r : MediaRow) =>
        (if r.media_key = m.media_key then { r with tweet_id := tid } else r).media_key) =
        fun r => r.media_key := by
      funext r
      by_cases hr : r.media_key = m.media_key <;> simp [hr]
    rw [show db.media.map ((fun r => r.media_key) ∘
        (fun r => if r.media_key = m.media_key then { r with tweet_id := tid } else r)) =
        db.media.map (fun r => r.media_key) from by
      rw [List.map_congr_left]
      intro r _
      by_cases hr : r.media_key = m.media_key <;> simp [hr]]
    exact hnd
  · split at h
    · next hc hfile =>
      obtain rfl : _ = db2 := Option.some.inj h
      refine ⟨rfl, rfl, rfl, rfl, rfl, rfl, rfl, ?_⟩
      intro hnd
      simp only [List.any_eq_true, decide_eq_true_eq, not_exists, not_and] at hc
      simp only [List.map_append, List.map_cons, List.map_nil]
      rw [List.nodup_append]
      refine ⟨hnd, List.nodup_singleton _, ?_⟩
      intro k hk
      simp only [List.mem_map] at hk
      obtain ⟨r, hr, hkey⟩ := hk
      simp only [List.mem_singleton]
      intro hkc
      exact hc r hr (by rw [hkey, hkc])
    · exact absurd h (by simp)

theorem mediaFold_spec {tid : String} :
    ∀ (ms : List (MediaIn × Nat)) {db db2 : DB},
      mediaFold tid ms db = some db2 →
      db2.tweets = db.tweets ∧
      db2.sources = db.sources ∧
      db2.users = db.users ∧
      db2.localFiles = db.localFiles ∧
      db2.hashtagEntities = db.hashtagEntities ∧
      db2.mentionEntities = db.mentionEntities ∧
      db2.urlEntities = db.urlEntities ∧
      ((db.media.map (fun r => r.media_key)).Nodup →
        (db2.media.map (fun r => r.media_key)).Nodup)
  | [], db, db2, h => by
    obtain rfl : db = db2 := Option.some.inj h
    exact ⟨rfl, rfl, rfl, rfl, rfl, rfl, rfl, id⟩
  | p :: ms, db, db2, h => by
    rw [show mediaFold tid (p :: ms) db =
        (mediaConnectOrCreate tid p.1 p.2 db).bind (mediaFold tid ms) from rfl] at h
    cases hstep : mediaConnectOrCreate tid p.1 p.2 db with
    | none => rw [hstep] at h; exact absurd h (by simp)
    | some dbm =>
      rw [hstep] at h
      have h1 := mediaConnectOrCreate_spec hstep
      have h2 := mediaFold_spec ms h
      exact ⟨h2.1.trans h1.1, h2.2.1.trans h1.2.1, h2.2.2.1.trans h1.2.2.1,
        h2.2.2.2.1.trans h1.2.2.2.1, h2.2.2.2.2.1.trans h1.2.2.2.2.1,
        h2.2.2.2.2.2.1.trans h1.2.2.2.2.2.1,
        h2.2.2.2.2.2.2.1.trans h1.2.2.2.2.2.2.1,
        fun hnd => h2.2.2.2.2.2.2.2 (h1.2.2.2.2.2.2.2 hnd)⟩

theorem hashtagConnectOrCreate_spec (tid : String) (hin : HashtagIn) (db : DB) :
    (hashtagConnectOrCreate tid hin db).tweets = db.tweets ∧
    (hashtagConnectOrCreate tid hin db).sources = db.sources ∧
    (hashtagConnectOrCreate tid hin db).users = db.users ∧
    (hashtagConnectOrCreate tid hin db).media = db.media ∧
    (hashtagConnectOrCreate tid hin db).localFiles = db.localFiles ∧
    (hashtagConnectOrCreate tid hin db).mentionEntities = db.mentionEntities ∧
    (hashtagConnectOrCreate tid hin db).urlEntities = db.urlEntities ∧
    ((db.hashtagEntities.map (fun r => (r.tweet_id, r.start, r.stop))).Nodup →
      ((hashtagConnectOrCreate tid hin db).hashtagEntities.map
        (fun r => (r.tweet_id, r.start, r.stop))).Nodup) := by
  unfold hashtagConnectOrCreate
  split
  · exact ⟨rfl, rfl, rfl, rfl, rfl, rfl, rfl, id⟩
  · next hc =>
    have hsub := connectOrCreateHashtag_sub db hin.tag
    refine ⟨hsub.1, hsub.2.1, hsub.2.2.1, hsub.2.2.2.1, hsub.2.2.2.2.1,
      hsub.2.2.2.2.2.2.1, hsub.2.2.2.2.2.2.2, ?_⟩
    intro hnd
    simp only [List.any_eq_true, decide_eq_true_eq, not_exists, not_and] at hc
    simp only [hsub.2.2.2.2.2.1, List.map_append, List.map_cons, List.map_nil]
    rw [List.nodup_append]
    refine ⟨hnd, List.nodup_singleton _, ?_⟩
    intro k hk
    simp only [List.mem_map] at hk
    obtain ⟨r, hr, hkey⟩ := hk
    simp only [List.mem_singleton]
    intro hkc
    rw [hkc] at hkey
    have h1 : r.tweet_id = tid := congrArg Prod.fst hkey
    have h2 : r.start = hin.start := congrArg (fun p => p.2.1) hkey
    have h3 : r.stop = hin.stop := congrArg (fun p => p.2.2) hkey
    exact hc r hr h1 h2 h3

theorem mentionConnectOrCreate_spec (tid : String) (m : MentionIn) (db : DB) :
    (mentionConnectOrCreate tid m db).tweets = db.tweets ∧
    (mentionConnectOrCreate tid m db).sources = db.sources ∧
    (mentionConnectOrCreate tid m db).users = db.users ∧
    (mentionConnectOrCreate tid m db).media = db.media ∧
    (mentionConnectOrCreate tid m db).localFiles = db.localFiles ∧
    (mentionConnectOrCreate tid m db).hashtagEntities = db.hashtagEntities ∧
    (mentionConnectOrCreate tid m db).urlEntities = db.urlEntities ∧
    ((db.mentionEntities.map (fun r => (r.tweet_id, r.start, r.stop))).Nodup →
      ((mentionConnectOrCreate tid m db).mentionEntities.map
        (fun r => (r.tweet_id, r.start, r.stop))).Nodup) := by
  unfold mentionConnectOrCreate
  split
  · exact ⟨rfl, rfl, rfl, rfl, rfl, rfl, rfl, id⟩
  · next hc =>
    refine ⟨rfl, rfl, rfl, rfl, rfl, rfl, rfl, ?_⟩
    intro hnd
    simp only [List.any_eq_true, decide_eq_true_eq, not_exists, not_and] at hc
    simp only [List.map_append, List.map_cons, List.map_nil]
    rw [List.nodup_append]
    refine ⟨hnd, List.nodup_singleton _, ?_⟩
    intro k hk
    simp only [List.mem_map] at hk
    obtain ⟨r, hr, hkey⟩ := hk
    simp only [List.mem_singleton]
    intro hkc
    rw [hkc] at hkey
    have h1 : r.tweet_id = tid := congrArg Prod.fst hkey
    have h2 : r.start = m.start := congrArg (fun p => p.2.1) hkey
    have h3 : r.stop = m.stop := congrArg (fun p => p.2.2) hkey
    exact hc r hr h1 h2 h3

theorem urlConnectOrCreate_spec (tid : String) (u : UrlIn) (db : DB) :
    (urlConnectOrCreate tid u db).tweets = db.tweets ∧
    (urlConnectOrCreate tid u db).sources = db.sources ∧
    (urlConnectOrCreate tid u db).users = db.users ∧
    (urlConnectOrCreate tid u db).media = db.media ∧
    (urlConnectOrCreate tid u db).localFiles = db.localFiles ∧
    (urlConnectOrCreate tid u db).hashtagEntities = db.hashtagEntities ∧
    (urlConnectOrCreate tid u db).mentionEntities = db.mentionEntities ∧
    ((db.urlEntities.map (fun r => (r.tweet_id, r.start, r.stop))).Nodup →
      ((urlConnectOrCreate tid u db).urlEntities.map
        (fun r => (r.tweet_id, r.start, r.stop))).Nodup) := by
  unfold urlConnectOrCreate
  split
  · exact ⟨rfl, rfl, rfl, rfl, rfl, rfl, rfl, id⟩
  · next hc =>
    refine ⟨rfl, rfl, rfl, rfl, rfl, rfl, rfl, ?_⟩
    intro hnd
    simp only [List.any_eq_true, decide_eq_true_eq, not_exists, not_and] at hc
    simp only [List.map_append, List.map_cons, List.map_nil]
    rw [List.nodup_append]
    refine ⟨hnd, List.nodup_singleton _, ?_⟩
    intro k hk
    simp only [List.mem_map] at hk
    obtain ⟨r, hr, hkey⟩ := hk
    simp only [List.mem_singleton]
    intro hkc
    rw [hkc] at hkey
    have h1 : r.tweet_id = tid := congrArg Prod.fst hkey
    have h2 : r.start = u.start := congrArg (fun p => p.2.1) hkey
    have h3 : r.stop = u.stop := congrArg (fun p => p.2.2) hkey
    exact hc r hr h1 h2 h3

theorem hashtagFold_spec (tid : String) :
    ∀ (hs : List HashtagIn) (db : DB),
      ((hs.foldl (fun d h => hashtagConnectOrCreate tid h d) db).tweets = db.tweets ∧
      (hs.foldl (fun d h => hashtagConnectOrCreate tid h d) db).sources = db.sources ∧
      (hs.foldl (fun d h => hashtagConnectOrCreate tid h d) db).users = db.users ∧
      (hs.foldl (fun d h => hashtagConnectOrCreate tid h d) db).media = db.media ∧
      (hs.foldl (fun d h => hashtagConnectOrCreate tid h d) db).localFiles = db.localFiles ∧
      (hs.foldl (fun d h => hashtagConnectOrCreate tid h d) db).mentionEntities =
        db.mentionEntities ∧
      (hs.foldl (fun d h => hashtagConnectOrCreate tid h d) db).urlEntities =
        db.urlEntities ∧
      ((db.hashtagEntities.map (fun r => (r.tweet_id, r.start, r.stop))).Nodup →
        ((hs.foldl (fun d h => hashtagConnectOrCreate tid h d) db).hashtagEntities.map
          (fun r => (r.tweet_id, r.start, r.stop))).Nodup))
  | [], db => by exact ⟨rfl, rfl, rfl, rfl, rfl, rfl, rfl, id⟩
  | hin :: hs, db => by
    simp only [List.foldl_cons]
    have h1 := hashtagConnectOrCreate_spec tid hin db
    have h2 := hashtagFold_spec tid hs (hashtagConnectOrCreate tid hin db)
    exact ⟨h2.1.trans h1.1, h2.2.1.trans h1.2.1, h2.2.2.1.trans h1.2.2.1,
      h2.2.2.2.1.trans h1.2.2.2.1, h2.2.2.2.2.1.trans h1.2.2.2.2.1,
      h2.2.2.2.2.2.1.trans h1.2.2.2.2.2.1,
      h2.2.2.2.2.2.2.1.trans h1.2.2.2.2.2.2.1,
      fun hnd => h2.2.2.2.2.2.2.2 (h1.2.2.2.2.2.2.2 hnd)⟩

theorem mentionFold_spec (tid : String) :
    ∀ (ms : List MentionIn) (db : DB),
      ((ms.foldl (fun d m => mentionConnectOrCreate tid m d) db).tweets = db.tweets ∧
      (ms.foldl (fun d m => mentionConnectOrCreate tid m d) db).sources = db.sources ∧
      (ms.foldl (fun d m => mentionConnectOrCreate tid m d) db).users = db.users ∧
      (ms.foldl (fun d m => mentionConnectOrCreate tid m d) db).media = db.media ∧
      (ms.foldl (fun d m => mentionConnectOrCreate tid m d) db).localFiles = db.localFiles ∧
      (ms.foldl (fun d m => mentionConnectOrCreate tid m d) db).hashtagEntities =
        db.hashtagEntities ∧
      (ms.foldl (fun d m => mentionConnectOrCreate tid m d) db).urlEntities =
        db.urlEntities ∧
      ((db.mentionEntities.map (fun r => (r.tweet_id, r.start, r.stop))).Nodup →
        ((ms.foldl (fun d m => mentionConnectOrCreate tid m d) db).mentionEntities.map
          (fun r => (r.tweet_id, r.start, r.stop))).Nodup))
  | [], db => by exact ⟨rfl, rfl, rfl, rfl, rfl, rfl, rfl, id⟩
  | m :: ms, db => by
    simp only [List.foldl_cons]
    have h1 := mentionConnectOrCreate_spec tid m db
    have h2 := mentionFold_spec tid ms (mentionConnectOrCreate tid m db)
    exact ⟨h2.1.trans h1.1, h2.2.1.trans h1.2.1, h2.2.2.1.trans h1.2.2.1,
      h2.2.2.2.1.trans h1.2.2.2.1, h2.2.2.2.2.1.trans h1.2.2.2.2.1,
      h2.2.2.2.2.2.1.trans h1.2.2.2.2.2.1,
      h2.2.2.2.2.2.2.1.trans h1.2.2.2.2.2.2.1,
      fun hnd => h2.2.2.2.2.2.2.2 (h1.2.2.2.2.2.2.2 hnd)⟩

theorem urlFold_spec (tid : String) :
    ∀ (us : List UrlIn) (db : DB),
      ((us.foldl (fun d u => urlConnectOrCreate tid u d) db).tweets = db.tweets ∧
      (us.foldl (fun d u => urlConnectOrCreate tid u d) db).sources = db.sources ∧
      (us.foldl (fun d u => urlConnectOrCreate tid u d) db).users = db.users ∧
      (us.foldl (fun d u => urlConnectOrCreate tid u d) db).media = db.media ∧
      (us.foldl (fun d u => urlConnectOrCreate tid u d) db).localFiles = db.localFiles ∧
      (us.foldl (fun d u => urlConnectOrCreate tid u d) db).hashtagEntities =
        db.hashtagEntities ∧
      (us.foldl (fun d u => urlConnectOrCreate tid u d) db).mentionEntities =
        db.mentionEntities ∧
      ((db.urlEntities.map (fun r => (r.tweet_id, r.start, r.stop))).Nodup →
        ((us.foldl (fun d u => urlConnectOrCreate tid u d) db).urlEntities.map
          (fun r => (r.tweet_id, r.start, r.stop))).Nodup))
  | [], db => by exact ⟨rfl, rfl, rfl, rfl, rfl, rfl, rfl, id⟩
  | u :: us, db => by
    simp only [List.foldl_cons]
    have h1 := urlConnectOrCreate_spec tid u db
    have h2 := urlFold_spec tid us (urlConnectOrCreate tid u db)
    exact ⟨h2.1.trans h1.1, h2.2.1.trans h1.2.1, h2.2.2.1.trans h1.2.2.1,
      h2.2.2.2.1.trans h1.2.2.2.1, h2.2.2.2.2.1.trans h1.2.2.2.2.1,
      h2.2.2.2.2.2.1.trans h1.2.2.2.2.2.1,
      h2.2.2.2.2.2.2.1.trans h1.2.2.2.2.2.2.1,
      fun hnd => h2.2.2.2.2.2.2.2 (h1.2.2.2.2.2.2.2 hnd)⟩

/-- The update clause is a no-op when every matching row already
points at the source. -/
theorem setTweetSource_fixed {db : DB} {tid : String} {sid : Nat}
    (h : ∀ r ∈ db.tweets, r.id = tid → r.source_id = some sid) :
    setTweetSource db tid sid = db := by
  unfold setTweetSource
  have hmap : db.tweets.map
      (fun r => if r.id = tid then { r with source_id := some sid } else r) =
      db.tweets := by
    rw [show db.tweets.map
        (fun r => if r.id = tid then { r with source_id := some sid } else r) =
        db.tweets.map id from
      List.map_congr_left (fun r hr => by
        by_cases hc : r.id = tid
        · rw [if_pos hc]
          have := h r hr hc
          cases r
          simp_all
        · rw [if_neg hc]
          rfl)]
    exact List.map_id db.tweets
  rw [hmap]

theorem sourceStep_sub (t : TweetIn) (db : DB) :
    ((sourceStep t db).1).tweets = db.tweets ∧
    ((sourceStep t db).1).users = db.users ∧
    ((sourceStep t db).1).media = db.media ∧
    ((sourceStep t db).1).localFiles = db.localFiles ∧
    ((sourceStep t db).1).hashtagEntities = db.hashtagEntities ∧
    ((sourceStep t db).1).mentionEntities = db.mentionEntities ∧
    ((sourceStep t db).1).urlEntities = db.urlEntities := by
  unfold sourceStep
  cases t.source with
  | none => exact ⟨rfl, rfl, rfl, rfl, rfl, rfl, rfl⟩
  | some name => exact connectOrCreateSource_sub db name

theorem replyStep_sub (t : TweetIn) (db : DB) :
    (replyStep t db).tweets = db.tweets ∧
    (replyStep t db).sources = db.sources ∧
    (replyStep t db).media = db.media ∧
    (replyStep t db).localFiles = db.localFiles ∧
    (replyStep t db).hashtagEntities = db.hashtagEntities ∧
    (replyStep t db).mentionEntities = db.mentionEntities ∧
    (replyStep t db).urlEntities = db.urlEntities := by
  unfold replyStep
  cases t.in_reply_to_user with
  | none => exact ⟨rfl, rfl, rfl, rfl, rfl, rfl, rfl⟩
  | some u =>
    have h := connectOrCreateUser_sub db u
    exact ⟨h.1, h.2.1, h.2.2.1, h.2.2.2.1, h.2.2.2.2.1, h.2.2.2.2.2.1,
      h.2.2.2.2.2.2⟩

/-- What the create branch of the tweet upsert does to the tables the
idempotence argument cares about. -/
theorem createTweetCreate_spec {t : TweetIn} {mediaArgs : List (MediaIn × Nat)}
    {db db2 : DB} (h : createTweetCreate t mediaArgs db = some db2) :
    db2.tweets = db.tweets ++
      [⟨t.id, t.text, t.created_at, t.author.id, (sourceStep t db).2,
        t.in_reply_to_user.map (fun u => u.id)⟩] ∧
    db2.sources = ((sourceStep t db).1).sources ∧
    ((db.media.map (fun r => r.media_key)).Nodup →
      (db2.media.map (fun r => r.media_key)).Nodup) ∧
    ((db.hashtagEntities.map (fun r => (r.tweet_id, r.start, r.stop))).Nodup →
      (db2.hashtagEntities.map (fun r => (r.tweet_id, r.start, r.stop))).Nodup) ∧
    ((db.mentionEntities.map (fun r => (r.tweet_id, r.start, r.stop))).Nodup →
      (db2.mentionEntities.map (fun r => (r.tweet_id, r.start, r.stop))).Nodup) ∧
    ((db.urlEntities.map (fun r => (r.tweet_id, r.start, r.stop))).Nodup →
      (db2.urlEntities.map (fun r => (r.tweet_id, r.start, r.stop))).Nodup) := by
  unfold createTweetCreate at h
  cases hmf : mediaFold t.id mediaArgs
      (insertTweetRow t (sourceStep t db).2
        (connectOrCreateUser (replyStep t (sourceStep t db).1) t.author)) with
  | none => rw [hmf] at h; exact absurd h (by simp)
  | some db4 =>
    rw [hmf] at h
    obtain rfl : _ = db2 := Option.some.inj h
    have hsrc := sourceStep_sub t db
    have hreply := replyStep_sub t (sourceStep t db).1
    have hauthor := connectOrCreateUser_sub (replyStep t (sourceStep t db).1) t.author
    have hmedia := mediaFold_spec mediaArgs hmf
    have hins : (insertTweetRow t (sourceStep t db).2
        (connectOrCreateUser (replyStep t (sourceStep t db).1) t.author)).tweets =
        db.tweets ++
          [⟨t.id, t.text, t.created_at, t.author.id, (sourceStep t db).2,
            t.in_reply_to_user.map (fun u => u.id)⟩] := by
      unfold insertTweetRow
      simp only
      rw [hauthor.1, hreply.1, hsrc.1]
    have hh := hashtagFold_spec t.id t.hashtags db4
    have hm := mentionFold_spec t.id t.mentions
      (t.hashtags.foldl (fun d h => hashtagConnectOrCreate t.id h d) db4)
    have hu := urlFold_spec t.id t.urls
      (t.mentions.foldl (fun d m => mentionConnectOrCreate t.id m d)
        (t.hashtags.foldl (fun d h => hashtagConnectOrCreate t.id h d) db4))
    refine ⟨?_, ?_, ?_, ?_, ?_, ?_⟩
    · rw [hu.1, hm.1, hh.1, hmedia.1, hins]
    · rw [hu.2.1, hm.2.1, hh.2.1, hmedia.2.1]
      show _ = ((sourceStep t db).1).sources
      rw [show (insertTweetRow t (sourceStep t db).2
          (connectOrCreateUser (replyStep t (sourceStep t db).1) t.author)).sources =
          (connectOrCreateUser (replyStep t (sourceStep t db).1) t.author).sources
        from rfl]
      rw [hauthor.2.1, hreply.2.1]
    · intro hnd
      have h4 : (db4.media.map (fun r => r.media_key)).Nodup := by
        refine hmedia.2.2.2.2.2.2.2 ?_
        rw [show (insertTweetRow t (sourceStep t db).2
            (connectOrCreateUser (replyStep t (sourceStep t db).1) t.author)).media =
            (connectOrCreateUser (replyStep t (sourceStep t db).1) t.author).media
          from rfl]
        rw [hauthor.2.2.1, hreply.2.2.1, hsrc.2.2.1]
        exact hnd
      rw [hu.2.2.2.1, hm.2.2.2.1, hh.2.2.2.1]
      exact h4
    · intro hnd
      have h4 : (db4.hashtagEntities.map
          (fun r => (r.tweet_id, r.start, r.stop))).Nodup := by
        rw [hmedia.2.2.2.2.1]
        rw [show (insertTweetRow t (sourceStep t db).2
            (connectOrCreateUser (replyStep t (sourceStep t db).1) t.author)).hashtagEntities =
            (connectOrCreateUser (replyStep t (sourceStep t db).1) t.author).hashtagEntities
          from rfl]
        rw [hauthor.2.2.2.2.1, hreply.2.2.2.2.1, hsrc.2.2.2.2.1]
        exact hnd
      have h5 := hh.2.2.2.2.2.2.2 h4
      rw [hu.2.2.2.2.2.1, hm.2.2.2.2.2.1]
      exact h5
    · intro hnd
      have h4 : (db4.mentionEntities.map
          (fun r => (r.tweet_id, r.start, r.stop))).Nodup := by
        rw [hmedia.2.2.2.2.2.1]
        rw [show (insertTweetRow t (sourceStep t db).2
            (connectOrCreateUser (replyStep t (sourceStep t db).1) t.author)).mentionEntities =
            (connectOrCreateUser (replyStep t (sourceStep t db).1) t.author).mentionEntities
          from rfl]
        rw [hauthor.2.2.2.2.2.1, hreply.2.2.2.2.2.1, hsrc.2.2.2.2.2.1]
        exact hnd
      have h5 : ((t.hashtags.foldl (fun d h => hashtagConnectOrCreate t.id h d)
          db4).mentionEntities.map (fun r => (r.tweet_id, r.start, r.stop))).Nodup := by
        rw [hh.2.2.2.2.2.1]
        exact h4
      have h6 := hm.2.2.2.2.2.2.2 h5
      rw [hu.2.2.2.2.2.2.1]
      exact h6
    · intro hnd
      have h4 : (db4.urlEntities.map
          (fun r => (r.tweet_id, r.start, r.stop))).Nodup := by
        rw [hmedia.2.2.2.2.2.2.1]
        rw [show (insertTweetRow t (sourceStep t db).2
            (connectOrCreateUser (replyStep t (sourceStep t db).1) t.author)).urlEntities =
            (connectOrCreateUser (replyStep t (sourceStep t db).1) t.author).urlEntities
          from rfl]
        rw [hauthor.2.2.2.2.2.2, hreply.2.2.2.2.2.2, hsrc.2.2.2.2.2.2]
        exact hnd
      have h5 : ((t.hashtags.foldl (fun d h => hashtagConnectOrCreate t.id h d)
          db4).urlEntities.map (fun r => (r.tweet_id, r.start, r.stop))).Nodup := by
        rw [hh.2.2.2.2.2.2.1]
        exact h4
      have h6 : ((t.mentions.foldl (fun d m => mentionConnectOrCreate t.id m d)
          (t.hashtags.foldl (fun d h => hashtagConnectOrCreate t.id h d)
            db4)).urlEntities.map (fun r => (r.tweet_id, r.start, r.stop))).Nodup := by
        rw [hm.2.2.2.2.2.2.1]
        exact h5
      exact hu.2.2.2.2.2.2.2 h6

/-- C5: importing the same tweet twice through `createTweet` yields
exactly one `TwitterTweet` row for its id, keeps all unique-key tables
duplicate-free (no duplicate annotation or media rows), and importing
again is a no-op: it returns the very same database, keeping the
existing record and its `LocalFile` references. -/
theorem createTweet_idempotent (t : TweetIn) (fileMap : String → Option Nat)
    (db db2 : DB) (hwf : WF db) (h : createTweet t fileMap db = some db2) :
    createTweet t fileMap db2 = some db2 ∧
    (db2.tweets.filter (fun r => r.id = t.id)).length = 1 ∧
    WF db2 := by
  unfold createTweet at h ⊢
  rw [Option.bind_eq_some] at h
  obtain ⟨mediaArgs, hm, h⟩ := h
  rw [hm, Option.some_bind]
  by_cases hex : (db.tweets.any (fun r => r.id = t.id)) = true
  · -- the first import hit the `update: {source}` branch
    rw [if_pos hex] at h
    have hexists : ∃ r ∈ db.tweets, r.id = t.id := by
      simpa [List.any_eq_true] using hex
    cases hsrc : t.source with
    | none =>
      rw [hsrc] at h
      have h2 : some db = some db2 := h
      obtain rfl : db = db2 := Option.some.inj h2
      rw [if_pos hex]
      exact ⟨rfl,
        length_filter_key_eq_one (fun r : TweetRow => r.id) t.id db.tweets
          hwf.tweets_nodup hexists, hwf⟩
    | some name =>
      rw [hsrc] at h
      have h2 : some (setTweetSource (connectOrCreateSource db name).1 t.id
          (connectOrCreateSource db name).2) = some db2 := h
      have hdb2 : setTweetSource (connectOrCreateSource db name).1 t.id
          (connectOrCreateSource db name).2 = db2 := Option.some.inj h2
      have hq := connectOrCreateSource_sub db name
      have hset := setTweetSource_sub (connectOrCreateSource db name).1 t.id
        (connectOrCreateSource db name).2
      have hids : db2.tweets.map (fun r => r.id) =
          db.tweets.map (fun r => r.id) := by
        rw [← hdb2, setTweetSource_ids, hq.1]
      have hsources : db2.sources = ((connectOrCreateSource db name).1).sources := by
        rw [← hdb2]
        exact hset.1
      have hex2 : (db2.tweets.any (fun r => r.id = t.id)) = true := by
        rw [List.any_eq_true]
        have hmem : t.id ∈ db2.tweets.map (fun r => r.id) := by
          rw [hids, List.mem_map]
          obtain ⟨r, hr, hid⟩ := hexists
          exact ⟨r, hr, hid⟩
        rw [List.mem_map] at hmem
        obtain ⟨r2, hr2, hid2⟩ := hmem
        exact ⟨r2, hr2, by simpa using hid2⟩
      rw [if_pos hex2]
      have hstable := @connectOrCreateSource_stable db db2 name hsources
      have hfix : setTweetSource db2 t.id (connectOrCreateSource db name).2 = db2 := by
        refine setTweetSource_fixed ?_
        intro r hr hid
        rw [← hdb2] at hr
        exact setTweetSource_post _ _ _ r hr hid
      refine ⟨?_, ?_, ?_⟩
      · show some (setTweetSource (connectOrCreateSource db2 name).1 t.id
          (connectOrCreateSource db2 name).2) = some db2
        rw [hstable]
        show some (setTweetSource db2 t.id (connectOrCreateSource db name).2) =
          some db2
        rw [hfix]
      · refine length_filter_key_eq_one (fun r : TweetRow => r.id) t.id _
          (hids ▸ hwf.tweets_nodup) ?_
        simpa [List.any_eq_true] using hex2
      · exact ⟨hids ▸ hwf.tweets_nodup,
          by rw [← hdb2, hset.2.2.1, hq.2.2.1]; exact hwf.media_nodup,
          by rw [← hdb2, hset.2.2.2.2.1, hq.2.2.2.2.1]; exact hwf.hashtagE_nodup,
          by rw [← hdb2, hset.2.2.2.2.2.1, hq.2.2.2.2.2.1]; exact hwf.mentionE_nodup,
          by rw [← hdb2, hset.2.2.2.2.2.2, hq.2.2.2.2.2.2]; exact hwf.urlE_nodup⟩
  · -- the first import hit the `create` branch
    rw [if_neg hex] at h
    have spec := createTweetCreate_spec h
    have hnotid : ∀ r ∈ db.tweets, ¬(r.id = t.id) := by
      intro r hr hc
      exact hex (by simp [List.any_eq_true]; exact ⟨r, hr, hc⟩)
    have hids : db2.tweets.map (fun r => r.id) =
        db.tweets.map (fun r => r.id) ++ [t.id] := by
      rw [spec.1]
      simp
    have hnd2 : (db2.tweets.map (fun r => r.id)).Nodup := by
      rw [hids, List.nodup_append]
      refine ⟨hwf.tweets_nodup, List.nodup_singleton _, ?_⟩
      intro i hi
      simp only [List.mem_map] at hi
      obtain ⟨r, hr, hkey⟩ := hi
      simp only [List.mem_singleton]
      intro hc
      exact hnotid r hr (by rw [hkey, hc])
    have hex2 : (db2.tweets.any (fun r => r.id = t.id)) = true := by
      rw [List.any_eq_true]
      refine ⟨⟨t.id, t.text, t.created_at, t.author.id, (sourceStep t db).2,
        t.in_reply_to_user.map (fun u => u.id)⟩, ?_, by simp⟩
      rw [spec.1]
      simp
    rw [if_pos hex2]
    refine ⟨?_, ?_, ?_⟩
    · cases hsrc : t.source with
      | none => rfl
      | some name =>
        have hss : (sourceStep t db).1 = (connectOrCreateSource db name).1 := by
          unfold sourceStep
          rw [hsrc]
        have hsid : (sourceStep t db).2 =
            some (connectOrCreateSource db name).2 := by
          unfold sourceStep
          rw [hsrc]
        have hsources : db2.sources = ((connectOrCreateSource db name).1).sources := by
          rw [spec.2.1, hss]
        have hstable := @connectOrCreateSource_stable db db2 name hsources
        show some (setTweetSource (connectOrCreateSource db2 name).1 t.id
          (connectOrCreateSource db2 name).2) = some db2
        rw [hstable]
        show some (setTweetSource db2 t.id (connectOrCreateSource db name).2) =
          some db2
        have hfix : setTweetSource db2 t.id
            (connectOrCreateSource db name).2 = db2 := by
          refine setTweetSource_fixed ?_
          intro r hr hid
          rw [spec.1] at hr
          rcases List.mem_append.mp hr with hr | hr
          · exact absurd hid (hnotid r hr)
          · rw [List.mem_singleton.mp hr]
            simpa using hsid
        rw [hfix]
    · rw [spec.1, List.filter_append]
      have hnil : db.tweets.filter (fun r => r.id = t.id) = [] := by
        rw [List.filter_eq_nil_iff]
        intro r hr
        simpa using hnotid r hr
      rw [hnil]
      simp
    · exact ⟨hnd2, spec.2.2.1 hwf.media_nodup, spec.2.2.2.1 hwf.hashtagE_nodup,
        spec.2.2.2.2.1 hwf.mentionE_nodup, spec.2.2.2.2.2 hwf.urlE_nodup⟩

/-- Witness for C5: importing a concrete tweet into the empty database
succeeds, and the second import of the same tweet is a no-op on the
resulting one-post database. -/
theorem createTweet_idempotent_witness :
    createTweet ⟨"T1", "hello", 0, none, ⟨"U1", "Alice", "alice", 0⟩,
        none, [], [], [], []⟩ (fun _ => none)
      { DB.empty with
        users := [⟨"U1", "Alice", "alice", 0⟩],
        tweets := [⟨"T1", "hello", 0, "U1", none, none⟩] } =
      some { DB.empty with
        users := [⟨"U1", "Alice", "alice", 0⟩],
        tweets := [⟨"T1", "hello", 0, "U1", none, none⟩] } ∧
    (({ DB.empty with
        users := [⟨"U1", "Alice", "alice", 0⟩],
        tweets := [⟨"T1", "hello", 0, "U1", none, none⟩] } : DB).tweets.filter
      (fun r => r.id = "T1")).length = 1 := by
  have h := createTweet_idempotent
    ⟨"T1", "hello", 0, none, ⟨"U1", "Alice", "alice", 0⟩, none, [], [], [], []⟩
    (fun _ => none) DB.empty
    { DB.empty with
      users := [⟨"U1", "Alice", "alice", 0⟩],
      tweets := [⟨"T1", "hello", 0, "U1", none, none⟩] }
    (by constructor <;> decide) (by decide)
  exact ⟨h.1, h.2.1⟩

/-! ## JobManager.downloadUserLikesJob: the per-page transaction (C2) -/

/-- One page yielded by `TwitterService.usersIdLikedTweets`. -/
structure Page where
  tweets : List TweetIn
  next_token : Option String
deriving Repr, DecidableEq

/-- The `prisma.job.update({where: {id}, data: {args}})` that persists
the advanced pagination cursor (the in-memory `args` object with
`paginationToken` set to the page's `next_token`); a missing job row
makes Prisma throw. -/
def updateJobArgs (jobId : Nat) (tok : Option String) (db : DB) : Option DB :=
  if db.jobs.any (fun j => j.id = jobId) then
    some { db with
      jobs := db.jobs.map
        (fun j => if j.id = jobId then
          { j with args := { j.args with paginationToken := tok } } else j) }
  else none

/-- The single `$transaction` built per page by
`downloadUserLikesJob`: one `createTweet` upsert per tweet in page
order, then the `stageLikes` staging upserts for the page's liked
tweet ids (same order), then the cursor-persisting job update. -/
def pageTransaction (jobId : Nat) (uid : String) (page : Page)
    (fileMap : String → Option Nat) : List Op :=
  page.tweets.map (fun t => createTweet t fileMap) ++
    (page.tweets.map (fun t => t.id)).map
      (fun tid => fun db => some (stageLikeOp jobId uid tid db)) ++
    [updateJobArgs jobId page.next_token]

/-- The tweet has been persisted. -/
def tweetImported (db : DB) (t : TweetIn) : Prop :=
  ∃ r ∈ db.tweets, r.id = t.id

/-- The job's durable cursor reads `tok`. -/
def cursorIs (db : DB) (jobId : Nat) (tok : Option String) : Prop :=
  ∃ j ∈ db.jobs, j.id = jobId ∧ j.args.paginationToken = tok

/-- The tables `createTweet` never writes. -/
def otherTables (db : DB) :
    List StagingRow × List JobRow × Nat × List LikeRow × Nat :=
  (db.likeStaging, db.jobs, db.nextStagingIndex, db.likes, db.nextLikeIndex)

theorem otherTables_connectOrCreateSource (db : DB) (name : String) :
    otherTables ((connectOrCreateSource db name).1) = otherTables db := by
  unfold connectOrCreateSource
  cases db.sources.find? (fun s => s.name = name) <;> rfl

theorem otherTables_connectOrCreateUser (db : DB) (u : UserIn) :
    otherTables (connectOrCreateUser db u) = otherTables db := by
  unfold connectOrCreateUser
  split <;> rfl

theorem otherTables_connectOrCreateHashtag (db : DB) (tag : String) :
    otherTables ((connectOrCreateHashtag db tag).1) = otherTables db := by
  unfold connectOrCreateHashtag
  cases db.hashtags.find? (fun h => h.tag = tag) <;> rfl

theorem otherTables_sourceStep (t : TweetIn) (db : DB) :
    otherTables ((sourceStep t db).1) = otherTables db := by
  unfold sourceStep
  cases t.source with
  | none => rfl
  | some name => exact otherTables_connectOrCreateSource db name

theorem otherTables_replyStep (t : TweetIn) (db : DB) :
    otherTables (replyStep t db) = otherTables db := by
  unfold replyStep
  cases t.in_reply_to_user with
  | none => rfl
  | some u => exact otherTables_connectOrCreateUser db u

theorem otherTables_mediaConnectOrCreate {tid : String} {m : MediaIn}
    {fid : Nat} {db db2 : DB} (h : mediaConnectOrCreate tid m fid db = some db2) :
    otherTables db2 = otherTables db := by
  unfold mediaConnectOrCreate at h
  split at h
  · obtain rfl : _ = db2 := Option.some.inj h
    rfl
  · split at h
    · obtain rfl : _ = db2 := Option.some.inj h
      rfl
    · exact absurd h (by simp)

theorem otherTables_mediaFold {tid : String} :
    ∀ (ms : List (MediaIn × Nat)) {db db2 : DB},
      mediaFold tid ms db = some db2 → otherTables db2 = otherTables db
  | [], db, db2, h => by rw [Option.some.inj h]
  | p :: ms, db, db2, h => by
    rw [show mediaFold tid (p :: ms) db =
        (mediaConnectOrCreate tid p.1 p.2 db).bind (mediaFold tid ms) from rfl] at h
    cases hstep : mediaConnectOrCreate tid p.1 p.2 db with
    | none => rw [hstep] at h; exact absurd h (by simp)
    | some dbm =>
      rw [hstep] at h
      exact (otherTables_mediaFold ms h).trans
        (otherTables_mediaConnectOrCreate hstep)

theorem otherTables_hashtagConnectOrCreate (tid : String) (h : HashtagIn)
    (db : DB) : otherTables (hashtagConnectOrCreate tid h db) = otherTables db := by
  unfold hashtagConnectOrCreate
  split
  · rfl
  · exact otherTables_connectOrCreateHashtag db h.tag

theorem otherTables_mentionConnectOrCreate (tid : String) (m : MentionIn)
    (db : DB) : otherTables (mentionConnectOrCreate tid m db) = otherTables db := by
  unfold mentionConnectOrCreate
  split <;> rfl

theorem otherTables_urlConnectOrCreate (tid : String) (u : UrlIn) (db : DB) :
    otherTables (urlConnectOrCreate tid u db) = otherTables db := by
  unfold urlConnectOrCreate
  split <;> rfl

theorem foldl_otherTables {α : Type _} (f : DB → α → DB)
    (hf : ∀ d a, otherTables (f d a) = otherTables d) :
    ∀ (l : List α) (d : DB), otherTables (l.foldl f d) = otherTables d
  | [], _ => rfl
  | a :: l, d => by
    rw [List.foldl_cons, foldl_otherTables f hf l (f d a), hf d a]

theorem otherTables_createTweetCreate {t : TweetIn}
    {mediaArgs : List (MediaIn × Nat)} {db db2 : DB}
    (h : createTweetCreate t mediaArgs db = some db2) :
    otherTables db2 = otherTables db := by
  unfold createTweetCreate at h
  cases hmf : mediaFold t.id mediaArgs
      (insertTweetRow t (sourceStep t db).2
        (connectOrCreateUser (replyStep t (sourceStep t db).1) t.author)) with
  | none => rw [hmf] at h; exact absurd h (by simp)
  | some db4 =>
    rw [hmf] at h
    obtain rfl : _ = db2 := Option.some.inj h
    rw [foldl_otherTables _ (fun d u => otherTables_urlConnectOrCreate t.id u d),
      foldl_otherTables _ (fun d m => otherTables_mentionConnectOrCreate t.id m d),
      foldl_otherTables _ (fun d a => otherTables_hashtagConnectOrCreate t.id a d),
      otherTables_mediaFold mediaArgs hmf]
    rw [show otherTables (insertTweetRow t (sourceStep t db).2
        (connectOrCreateUser (replyStep t (sourceStep t db).1) t.author)) =
      otherTables (connectOrCreateUser (replyStep t (sourceStep t db).1) t.author)
      from rfl]
    rw [otherTables_connectOrCreateUser, otherTables_replyStep,
      otherTables_sourceStep]

/-- Operation `createTweet` only ever appends to the tweet table (by id), ensures
its own tweet is present, and leaves staging, ledger and job tables
untouched. -/
theorem createTweet_effects {t : TweetIn} {fileMap : String → Option Nat}
    {db db2 : DB} (h : createTweet t fileMap db = some db2) :
    (∃ rest, db2.tweets.map (fun r => r.id) = db.tweets.map (fun r => r.id) ++ rest) ∧
    (∃ r ∈ db2.tweets, r.id = t.id) ∧
    otherTables db2 = otherTables db := by
  unfold createTweet at h
  rw [Option.bind_eq_some] at h
  obtain ⟨mediaArgs, hm, h⟩ := h
  by_cases hex : (db.tweets.any (fun r => r.id = t.id)) = true
  · rw [if_pos hex] at h
    have hexists : ∃ r ∈ db.tweets, r.id = t.id := by
      simpa [List.any_eq_true] using hex
    cases hsrc : t.source with
    | none =>
      rw [hsrc] at h
      obtain rfl : db = db2 := Option.some.inj h
      exact ⟨⟨[], by simp⟩, hexists, rfl⟩
    | some name =>
      rw [hsrc] at h
      have hdb2 : setTweetSource (connectOrCreateSource db name).1 t.id
          (connectOrCreateSource db name).2 = db2 := Option.some.inj h
      have hq := connectOrCreateSource_sub db name
      have hids : db2.tweets.map (fun r => r.id) =
          db.tweets.map (fun r => r.id) := by
        rw [← hdb2, setTweetSource_ids, hq.1]
      refine ⟨⟨[], by simp [hids]⟩, ?_, ?_⟩
      · obtain ⟨r, hr, hid⟩ := hexists
        have hmem : t.id ∈ db2.tweets.map (fun r => r.id) := by
          rw [hids, List.mem_map]
          exact ⟨r, hr, hid⟩
        rw [List.mem_map] at hmem
        obtain ⟨r2, hr2, hid2⟩ := hmem
        exact ⟨r2, hr2, hid2⟩
      · rw [← hdb2]
        rw [show otherTables (setTweetSource (connectOrCreateSource db name).1
            t.id (connectOrCreateSource db name).2) =
          otherTables ((connectOrCreateSource db name).1) from rfl]
        exact otherTables_connectOrCreateSource db name
  · rw [if_neg hex] at h
    have spec := createTweetCreate_spec h
    refine ⟨⟨[t.id], by rw [spec.1]; simp⟩, ?_,
      otherTables_createTweetCreate h⟩
    refine ⟨⟨t.id, t.text, t.created_at, t.author.id, (sourceStep t db).2,
      t.in_reply_to_user.map (fun u => u.id)⟩, ?_, rfl⟩
    rw [spec.1]
    simp

theorem stagedRows_map_tweet {jobId : Nat} {uid : String} :
    ∀ (ts : List String) (n : Nat),
      (stagedRows jobId uid ts n).map (fun r => r.tweet_id) = ts
  | [], _ => rfl
  | t :: ts, n => by
    simp only [stagedRows, List.map_cons]
    rw [stagedRows_map_tweet ts (n + 1)]

theorem stageLikes_tweets_jobs (jobId : Nat) (uid : String) :
    ∀ (ts : List String) (db : DB),
      (stageLikes jobId uid ts db).tweets = db.tweets ∧
      (stageLikes jobId uid ts db).jobs = db.jobs
  | [], _ => ⟨rfl, rfl⟩
  | t :: ts, db => by
    unfold stageLikes
    rw [List.foldl_cons]
    have h := stageLikes_tweets_jobs jobId uid ts (stageLikeOp jobId uid t db)
    unfold stageLikes at h
    refine ⟨h.1.trans ?_, h.2.trans ?_⟩ <;>
      (unfold stageLikeOp; split <;> rfl)

/-- The batch of `createTweet` upserts for a page: every tweet of the
batch ends up present, the tweet-id column is only extended, and
staging/job/ledger tables are untouched. -/
theorem createTweetBatch_spec {fileMap : String → Option Nat} :
    ∀ (ts : List TweetIn) {db dbA : DB},
      applyTx (ts.map (fun t => createTweet t fileMap)) db = some dbA →
      (∃ rest, dbA.tweets.map (fun r => r.id) =
        db.tweets.map (fun r => r.id) ++ rest) ∧
      (∀ t ∈ ts, t.id ∈ dbA.tweets.map (fun r => r.id)) ∧
      otherTables dbA = otherTables db
  | [], db, dbA, h => by
    obtain rfl : db = dbA := Option.some.inj h
    exact ⟨⟨[], by simp⟩, by simp, rfl⟩
  | t :: ts, db, dbA, h => by
    rw [show applyTx ((t :: ts).map (fun t => createTweet t fileMap)) db =
        (createTweet t fileMap db).bind
          (applyTx (ts.map (fun t => createTweet t fileMap))) from rfl] at h
    cases hstep : createTweet t fileMap db with
    | none => rw [hstep] at h; exact absurd h (by simp)
    | some db1 =>
      rw [hstep] at h
      have heff := createTweet_effects hstep
      have hrec := createTweetBatch_spec ts h
      obtain ⟨⟨rest1, hr1⟩, hmem1, hoth1⟩ := heff
      obtain ⟨⟨rest2, hr2⟩, hmem2, hoth2⟩ := hrec
      refine ⟨⟨rest1 ++ rest2, by rw [hr2, hr1, List.append_assoc]⟩, ?_,
        hoth2.trans hoth1⟩
      intro t2 ht2
      rcases List.mem_cons.mp ht2 with ht2 | ht2
      · subst ht2
        obtain ⟨r, hr, hid⟩ := hmem1
        have : t2.id ∈ db1.tweets.map (fun r => r.id) := by
          rw [List.mem_map]; exact ⟨r, hr, hid⟩
        rw [hr2]
        exact List.mem_append_left _ this
      · exact hmem2 t2 ht2

theorem applyTx_cons (op : Op) (ops : List Op) (db : DB) :
    applyTx (op :: ops) db = (op db).bind (fun d => applyTx ops d) := by
  cases h : op db <;> simp [applyTx, h]

theorem applyTx_append :
    ∀ (ops1 ops2 : List Op) (db : DB),
      applyTx (ops1 ++ ops2) db =
        (applyTx ops1 db).bind (fun d => applyTx ops2 d)
  | [], ops2, db => by simp [applyTx]
  | op :: ops1, ops2, db => by
    rw [List.cons_append, applyTx_cons, applyTx_cons]
    cases h : op db with
    | none => simp
    | some db1 => simp [applyTx_append ops1 ops2 db1]

theorem applyTx_stageOps (jobId : Nat) (uid : String) :
    ∀ (ids : List String) (db : DB),
      applyTx (ids.map
        (fun tid => fun d => some (stageLikeOp jobId uid tid d))) db =
        some (stageLikes jobId uid ids db)
  | [], _ => rfl
  | tid :: ids, db => by
    rw [show applyTx ((tid :: ids).map
        (fun tid => fun d => some (stageLikeOp jobId uid tid d))) db =
      applyTx (ids.map (fun tid => fun d => some (stageLikeOp jobId uid tid d)))
        (stageLikeOp jobId uid tid db) from rfl]
    rw [applyTx_stageOps jobId uid ids]
    rfl

theorem updateJobArgs_spec {jobId : Nat} {tok : Option String} {db s : DB}
    (h : updateJobArgs jobId tok db = some s) :
    s.tweets = db.tweets ∧ s.likeStaging = db.likeStaging ∧
    cursorIs s jobId tok := by
  unfold updateJobArgs at h
  split at h
  · next hc =>
    obtain rfl : _ = s := Option.some.inj h
    refine ⟨rfl, rfl, ?_⟩
    simp only [List.any_eq_true, decide_eq_true_eq] at hc
    obtain ⟨j, hj, hid⟩ := hc
    have hmem := List.mem_map_of_mem
      (fun j => if j.id = jobId then
        { j with args := { j.args with paginationToken := tok } } else j) hj
    dsimp only at hmem
    rw [if_pos hid] at hmem
    exact ⟨_, hmem, hid, rfl⟩
  · exact absurd h (by simp)

/-- C2: for every page, the tweet/media upserts, the like-staging
inserts and the job's cursor update run in one atomic `$transaction`:
every observable state is either the untouched pre-page state or the
fully committed one, and the committed state has all of the page's
tweets persisted, the page's staging rows appended in page order, and
the cursor advanced to the page's `next_token`. -/
theorem page_transaction_atomic (db : DB) (jobId : Nat) (uid : String)
    (page : Page) (fileMap : String → Option Nat)
    (hnodup : (page.tweets.map (fun t => t.id)).Nodup)
    (hfresh : ∀ t ∈ page.tweets, ∀ r ∈ db.likeStaging,
      ¬(r.user_id = uid ∧ r.tweet_id = t.id ∧ r.job_id = jobId)) :
    ∀ s ∈ txObservable (pageTransaction jobId uid page fileMap) db,
      s = db ∨
      ((∀ t ∈ page.tweets, tweetImported s t) ∧
        (s.likeStaging.filter (fun r => r.job_id = jobId)).map
            (fun r => r.tweet_id) =
          (db.likeStaging.filter (fun r => r.job_id = jobId)).map
            (fun r => r.tweet_id) ++ page.tweets.map (fun t => t.id) ∧
        cursorIs s jobId page.next_token) := by
  intro s hs
  unfold txObservable at hs
  cases htx : applyTx (pageTransaction jobId uid page fileMap) db with
  | none =>
    rw [htx] at hs
    simp only [List.mem_singleton] at hs
    exact Or.inl hs
  | some db2 =>
    rw [htx] at hs
    rcases List.mem_pair.mp hs with h | h
    · exact Or.inl h
    · subst h
      refine Or.inr ?_
      -- split the transaction into its three phases
      unfold pageTransaction at htx
      rw [applyTx_append, applyTx_append, Option.bind_eq_some] at htx
      obtain ⟨dbB, htx12, htx3⟩ := htx
      rw [Option.bind_eq_some] at htx12
      obtain ⟨dbA, htx1, htx2⟩ := htx12
      have hbatch := createTweetBatch_spec page.tweets htx1
      have hstage : stageLikes jobId uid (page.tweets.map (fun t => t.id)) dbA =
          dbB := by
        rw [applyTx_stageOps jobId uid (page.tweets.map (fun t => t.id))] at htx2
        exact Option.some.inj htx2
      have hup : updateJobArgs jobId page.next_token dbB = some s := by
        rw [applyTx_cons] at htx3
        cases hu : updateJobArgs jobId page.next_token dbB with
        | none => rw [hu] at htx3; exact absurd htx3 (by simp)
        | some s2 =>
          rw [hu] at htx3
          simp only [Option.some_bind] at htx3
          have hss : s2 = s := by simpa [applyTx] using htx3
          rw [hss]
      have hupspec := updateJobArgs_spec hup
      have hlsA : dbA.likeStaging = db.likeStaging :=
        congrArg (fun p => p.1) hbatch.2.2
      have hnsA : dbA.nextStagingIndex = db.nextStagingIndex :=
        congrArg (fun p => p.2.2.1) hbatch.2.2
      have hspec := @stageLikes_spec jobId uid
        (page.tweets.map (fun t => t.id)) dbA
        (by
          intro tid htid r hr hc
          rw [hlsA] at hr
          rw [List.mem_map] at htid
          obtain ⟨t, ht, rfl⟩ := htid
          exact hfresh t ht r hr hc)
        hnodup
      refine ⟨?_, ?_, hupspec.2.2⟩
      · intro t ht
        have hid := hbatch.2.1 t ht
        have htw : s.tweets = dbA.tweets := by
          rw [hupspec.1, ← hstage]
          exact (stageLikes_tweets_jobs jobId uid _ dbA).1
        rw [List.mem_map] at hid
        obtain ⟨r, hr, hridt⟩ := hid
        exact ⟨r, by rw [htw]; exact hr, hridt⟩
      · rw [hupspec.2.1, ← hstage, hspec.1, hlsA, List.filter_append,
          List.map_append]
        congr 1
        rw [List.filter_eq_self.mpr, stagedRows_map_tweet]
        intro r hr
        simp [(stagedRows_job _ _ r hr).1]

/-- Witness for C2 at a one-tweet page: the committed observable state
has the tweet persisted, its staging row appended, and the cursor
advanced to the page's `next_token`. -/
theorem page_transaction_atomic_witness :
    ({ DB.empty with
      users := [⟨"U1", "Alice", "alice", 0⟩],
      tweets := [⟨"T1", "hello", 0, "U1", none, none⟩],
      likeStaging := [⟨0, "U1", "T1", 1⟩],
      jobs := [⟨1, "USER_LIKES_DOWNLOAD", ⟨"U1", "sess", some "tok2"⟩⟩],
      nextStagingIndex := 1 } : DB) ∈
      txObservable
        (pageTransaction 1 "U1"
          ⟨[⟨"T1", "hello", 0, none, ⟨"U1", "Alice", "alice", 0⟩,
            none, [], [], [], []⟩], some "tok2"⟩ (fun _ => none))
        { DB.empty with jobs := [⟨1, "USER_LIKES_DOWNLOAD", ⟨"U1", "sess", none⟩⟩] } ∧
    ((∀ t ∈ (⟨[⟨"T1", "hello", 0, none, ⟨"U1", "Alice", "alice", 0⟩,
          none, [], [], [], []⟩], some "tok2"⟩ : Page).tweets,
        tweetImported { DB.empty with
          users := [⟨"U1", "Alice", "alice", 0⟩],
          tweets := [⟨"T1", "hello", 0, "U1", none, none⟩],
          likeStaging := [⟨0, "U1", "T1", 1⟩],
          jobs := [⟨1, "USER_LIKES_DOWNLOAD", ⟨"U1", "sess", some "tok2"⟩⟩],
          nextStagingIndex := 1 } t) ∧
      cursorIs { DB.empty with
          users := [⟨"U1", "Alice", "alice", 0⟩],
          tweets := [⟨"T1", "hello", 0, "U1", none, none⟩],
          likeStaging := [⟨0, "U1", "T1", 1⟩],
          jobs := [⟨1, "USER_LIKES_DOWNLOAD", ⟨"U1", "sess", some "tok2"⟩⟩],
          nextStagingIndex := 1 } 1 (some "tok2")) := by
  have hmem : ({ DB.empty with
      users := [⟨"U1", "Alice", "alice", 0⟩],
      tweets := [⟨"T1", "hello", 0, "U1", none, none⟩],
      likeStaging := [⟨0, "U1", "T1", 1⟩],
      jobs := [⟨1, "USER_LIKES_DOWNLOAD", ⟨"U1", "sess", some "tok2"⟩⟩],
      nextStagingIndex := 1 } : DB) ∈
      txObservable
        (pageTransaction 1 "U1"
          ⟨[⟨"T1", "hello", 0, none, ⟨"U1", "Alice", "alice", 0⟩,
            none, [], [], [], []⟩], some "tok2"⟩ (fun _ => none))
        { DB.empty with
          jobs := [⟨1, "USER_LIKES_DOWNLOAD", ⟨"U1", "sess", none⟩⟩] } := by
    decide
  have h := page_transaction_atomic
    { DB.empty with jobs := [⟨1, "USER_LIKES_DOWNLOAD", ⟨"U1", "sess", none⟩⟩] }
    1 "U1"
    ⟨[⟨"T1", "hello", 0, none, ⟨"U1", "Alice", "alice", 0⟩,
      none, [], [], [], []⟩], some "tok2"⟩ (fun _ => none)
    (by decide) (by decide) _ hmem
  rcases h with h | h
  · exact absurd h (by decide)
  · exact ⟨hmem, h.1, h.2.2⟩

/-! ## C4: the early-exit check of the page loop -/

/-- Query `prisma.twitterLike.count` over the user and the page ids:
the number of permanent ledger rows for this user whose tweet id occurs
in the page. -/
def countExistingLikes (db : DB) (uid : String) (ids : List String) : Nat :=
  (db.likes.filter
    (fun r => r.user_id = uid ∧ ids.contains r.tweet_id)).length

/-- The `for await (const page of …)` loop of `downloadUserLikesJob`:
for each fetched page, count the page's posts already in the permanent
ledger and `break` when every post is present; otherwise run the page's
transaction and continue.  Returns the final database and how many
pages were fetched from the source. -/
def runPages (jobId : Nat) (uid : String) (fileMap : String → Option Nat) :
    List Page → DB → Option (DB × Nat)
  | [], db => some (db, 0)
  | page :: rest, db =>
    if countExistingLikes db uid (page.tweets.map (fun t => t.id)) =
        page.tweets.length then
      some (db, 1)
    else
      match applyTx (pageTransaction jobId uid page fileMap) db with
      | none => none
      | some db2 =>
        (runPages jobId uid fileMap rest db2).map (fun p => (p.1, p.2 + 1))

theorem nodup_tweet_ids_of_pairs {uid : String} :
    ∀ {l : List LikeRow},
      (l.map (fun r => (r.user_id, r.tweet_id))).Nodup →
      (∀ r ∈ l, r.user_id = uid) →
      (l.map (fun r => r.tweet_id)).Nodup
  | [], _, _ => List.Pairwise.nil
  | r :: l, hnd, huid => by
    simp only [List.map_cons, List.nodup_cons] at hnd ⊢
    refine ⟨?_, nodup_tweet_ids_of_pairs hnd.2
      (fun x hx => huid x (List.mem_cons_of_mem r hx))⟩
    intro hc
    rw [List.mem_map] at hc
    obtain ⟨r2, hr2, htid⟩ := hc
    apply hnd.1
    rw [List.mem_map]
    refine ⟨r2, hr2, ?_⟩
    rw [huid r2 (List.mem_cons_of_mem r hr2), htid,
      huid r (List.mem_cons_self r l)]

/-- C4: if every post of a fetched page is already in the permanent
ledger for the job's user, the loop breaks: exactly that one page is
fetched, no further page is requested, and the database is untouched. -/
theorem early_exit (db : DB) (jobId : Nat) (uid : String)
    (fileMap : String → Option Nat) (page : Page) (rest : List Page)
    (hwf : (db.likes.map (fun r => (r.user_id, r.tweet_id))).Nodup)
    (hnd : (page.tweets.map (fun t => t.id)).Nodup)
    (hall : ∀ t ∈ page.tweets, (uid, t.id) ∈ likePairs db) :
    runPages jobId uid fileMap (page :: rest) db = some (db, 1) := by
  have hcount : countExistingLikes db uid (page.tweets.map (fun t => t.id)) =
      page.tweets.length := by
    unfold countExistingLikes
    set ids := page.tweets.map (fun t => t.id) with hids
    set fl := db.likes.filter
      (fun r => r.user_id = uid ∧ ids.contains r.tweet_id) with hfl
    have hfl_uid : ∀ r ∈ fl, r.user_id = uid := by
      intro r hr
      rw [hfl, List.mem_filter] at hr
      exact (by simpa using hr.2 : r.user_id = uid ∧ _).1
    have hsub : List.Sublist fl db.likes := by
      rw [hfl]
      exact List.filter_sublist db.likes
    have hfl_pairs : (fl.map (fun r => (r.user_id, r.tweet_id))).Nodup :=
      hwf.sublist (List.Sublist.map _ hsub)
    have hfl_nd : (fl.map (fun r => r.tweet_id)).Nodup :=
      nodup_tweet_ids_of_pairs hfl_pairs hfl_uid
    have hmemiff : ∀ x, x ∈ fl.map (fun r => r.tweet_id) ↔ x ∈ ids := by
      intro x
      constructor
      · intro hx
        rw [List.mem_map] at hx
        obtain ⟨r, hr, rfl⟩ := hx
        rw [hfl, List.mem_filter] at hr
        have hp : r.user_id = uid ∧ ids.contains r.tweet_id = true := by
          simpa using hr.2
        simpa using hp.2
      · intro hx
        have hx2 := hx
        rw [hids, List.mem_map] at hx2
        obtain ⟨t, ht, rfl⟩ := hx2
        have hpair := hall t ht
        simp only [likePairs, List.mem_map] at hpair
        obtain ⟨r, hr, hpr⟩ := hpair
        have h1 : r.user_id = uid := congrArg Prod.fst hpr
        have h2 : r.tweet_id = t.id := congrArg Prod.snd hpr
        rw [List.mem_map]
        refine ⟨r, ?_, h2⟩
        rw [hfl, List.mem_filter]
        refine ⟨hr, ?_⟩
        simp only [decide_eq_true_eq]
        exact ⟨h1, by rw [h2]; exact List.elem_eq_true_of_mem hx⟩
    have hperm : List.Perm (fl.map (fun r => r.tweet_id)) ids :=
      (List.perm_ext_iff_of_nodup hfl_nd hnd).mpr hmemiff
    calc fl.length = (fl.map (fun r => r.tweet_id)).length :=
          (List.length_map _ _).symm
      _ = ids.length := hperm.length_eq
      _ = page.tweets.length := List.length_map _ _
  unfold runPages
  rw [if_pos hcount]

/-- Witness for C4: a one-tweet page whose post is already in the
ledger stops the loop after that single page, leaving the database
unchanged, even though more pages are available. -/
theorem early_exit_witness :
    runPages 1 "U1" (fun _ => none)
      [⟨[⟨"T1", "hello", 0, none, ⟨"U1", "Alice", "alice", 0⟩,
          none, [], [], [], []⟩], some "tok2"⟩,
        ⟨[⟨"T2", "bye", 0, none, ⟨"U1", "Alice", "alice", 0⟩,
          none, [], [], [], []⟩], none⟩]
      { DB.empty with likes := [⟨0, "U1", "T1"⟩], nextLikeIndex := 1 } =
      some ({ DB.empty with likes := [⟨0, "U1", "T1"⟩], nextLikeIndex := 1 }, 1) := by
  exact early_exit
    { DB.empty with likes := [⟨0, "U1", "T1"⟩], nextLikeIndex := 1 }
    1 "U1" (fun _ => none)
    ⟨[⟨"T1", "hello", 0, none, ⟨"U1", "Alice", "alice", 0⟩,
      none, [], [], [], []⟩], some "tok2"⟩
    [⟨[⟨"T2", "bye", 0, none, ⟨"U1", "Alice", "alice", 0⟩,
      none, [], [], [], []⟩], none⟩]
    (by decide) (by decide) (by decide)

/-! ## FileImporter.download (C6, C7) -/

/-- The outcome of actually fetching a URL and streaming its body: the
SHA-256 digest of the response (a byte buffer, modelled as a number),
the byte size and ctime reported by `stat`, and the sniffed file type
(already defaulted to `bin`/`application/octet-stream` when sniffing
fails). -/
structure FetchResult where
  hash : Nat
  size : Nat
  ext : String
  mime : String
  ctime : Int
deriving Repr, DecidableEq

/-- Prisma `connectOrCreate` on `FileExtension` by its unique `ext`. -/
def connectOrCreateExt (db : DB) (ext : String) : DB × Nat :=
  match db.fileExts.find? (fun e => e.ext = ext) with
  | some e => (db, e.id)
  | none =>
    ({ db with
        fileExts := db.fileExts ++ [⟨db.nextExtId, ext⟩],
        nextExtId := db.nextExtId + 1 },
      db.nextExtId)

/-- Prisma `connectOrCreate` on `Mime` by its unique `name`. -/
def connectOrCreateMime (db : DB) (name : String) : DB × Nat :=
  match db.mimes.find? (fun m => m.name = name) with
  | some m => (db, m.id)
  | none =>
    ({ db with
        mimes := db.mimes ++ [⟨db.nextMimeId, name⟩],
        nextMimeId := db.nextMimeId + 1 },
      db.nextMimeId)

/-- The database after the extension and MIME `connectOrCreate`s of
the `LocalFile` upsert. -/
def mimeDb (resp : FetchResult) (db : DB) : DB :=
  (connectOrCreateMime (connectOrCreateExt db resp.ext).1 resp.mime).1

/-- The `LocalFile` row written by the upsert: hash key, `stat`
metadata, and the connected extension/MIME ids. -/
def localFileRowFor (resp : FetchResult) (db : DB) : LocalFileRow :=
  ⟨resp.hash, resp.ctime, resp.size, (connectOrCreateExt db resp.ext).2,
    (connectOrCreateMime (connectOrCreateExt db resp.ext).1 resp.mime).2⟩

/-- Query `prisma.localFile.upsert` keyed by the content hash:
both branches write the same ctime/size and connect-or-create the
extension and MIME rows, so a second download whose bytes hash
identically collapses onto the one row keyed by that hash. -/
def localFileUpsert (resp : FetchResult) (db : DB) : DB × LocalFileRow :=
  if (mimeDb resp db).localFiles.any (fun f => f.sha256 = resp.hash) then
    ({ mimeDb resp db with
        localFiles := (mimeDb resp db).localFiles.map
          (fun f => if f.sha256 = resp.hash then localFileRowFor resp db
            else f) }, localFileRowFor resp db)
  else
    ({ mimeDb resp db with
        localFiles := (mimeDb resp db).localFiles ++ [localFileRowFor resp db] },
      localFileRowFor resp db)

/-- Method `FileImporter.download(url)`: look for an existing `TwitterMedia`
row with this url (`findFirst`, i.e. the first row in table order); if
one exists and its `LocalFile` row is still present, return that file
without fetching.  Otherwise fetch (`resp` summarises the response:
hash, size, sniffed type), write the bytes under the hash-derived path,
and upsert the `LocalFile` row keyed by the hash.  Returns the
database, the `LocalFile` row handed back to the caller, and whether a
network fetch happened. -/
def download (url : String) (resp : FetchResult) (db : DB) :
    DB × LocalFileRow × Bool :=
  match db.media.find? (fun m => m.url = url) with
  | some m =>
    match db.localFiles.find? (fun f => f.sha256 = m.file_id) with
    | some f => (db, f, false)
    | none =>
      let q := localFileUpsert resp db
      (q.1, q.2, true)
  | none =>
    let q := localFileUpsert resp db
    (q.1, q.2, true)

theorem localFileUpsert_spec (resp : FetchResult) (db : DB)
    (hwf : (db.localFiles.map (fun f => f.sha256)).Nodup) :
    ((localFileUpsert resp db).1.localFiles.filter
      (fun f => f.sha256 = resp.hash)).length = 1 ∧
    ((localFileUpsert resp db).1.localFiles.map (fun f => f.sha256)).Nodup ∧
    ((localFileUpsert resp db).2).sha256 = resp.hash ∧
    (localFileUpsert resp db).1.media = db.media := by
  have hq1 : ((connectOrCreateExt db resp.ext).1).localFiles = db.localFiles ∧
      ((connectOrCreateExt db resp.ext).1).media = db.media := by
    unfold connectOrCreateExt
    cases db.fileExts.find? (fun e => e.ext = resp.ext) <;> exact ⟨rfl, rfl⟩
  have hq2 : (mimeDb resp db).localFiles = db.localFiles ∧
      (mimeDb resp db).media = db.media := by
    unfold mimeDb connectOrCreateMime
    cases ((connectOrCreateExt db resp.ext).1).mimes.find?
        (fun m => m.name = resp.mime) <;>
      exact ⟨hq1.1, hq1.2⟩
  have hrow : (localFileRowFor resp db).sha256 = resp.hash := rfl
  unfold localFileUpsert
  split
  · next hc =>
    simp only
    rw [hq2.1] at hc ⊢
    simp only [List.any_eq_true, decide_eq_true_eq] at hc
    obtain ⟨f0, hf0, hkey⟩ := hc
    have hkeys : (db.localFiles.map
        (fun f => (if f.sha256 = resp.hash then localFileRowFor resp db
          else f))).map (fun f => f.sha256) =
        db.localFiles.map (fun f => f.sha256) := by
      rw [List.map_map]
      refine List.map_congr_left ?_
      intro f _
      by_cases hf : f.sha256 = resp.hash <;> simp [hf, hrow]
    refine ⟨?_, ?_, rfl, hq2.2⟩
    · refine length_filter_key_eq_one (fun f : LocalFileRow => f.sha256)
        resp.hash _ ?_ ?_
      · rw [hkeys]; exact hwf
      · refine ⟨_, List.mem_map_of_mem _ hf0, ?_⟩
        dsimp only
        rw [if_pos hkey, hrow]
    · rw [hkeys]; exact hwf
  · next hc =>
    simp only
    rw [hq2.1] at hc ⊢
    simp only [List.any_eq_true, decide_eq_true_eq, not_exists, not_and] at hc
    have hnil : db.localFiles.filter (fun f => f.sha256 = resp.hash) = [] := by
      rw [List.filter_eq_nil_iff]
      intro f hf
      simpa using hc f hf
    refine ⟨?_, ?_, rfl, hq2.2⟩
    · rw [List.filter_append, hnil]
      simp [hrow]
    · simp only [List.map_append, List.map_cons, List.map_nil]
      rw [List.nodup_append]
      refine ⟨hwf, List.nodup_singleton _, ?_⟩
      intro k hk
      rw [List.mem_map] at hk
      obtain ⟨f, hf, hkey⟩ := hk
      simp only [List.mem_singleton, hrow]
      intro hkc
      exact hc f hf (by rw [hkey, hkc])

/-- C6: two downloads of distinct source URLs (neither having a cached
`Media` row) whose response bodies hash to the same digest leave
exactly one `LocalFile` row keyed by that hash — the second download
upserts onto the first — and both calls hand back a `LocalFile` with
that digest, so each URL's later-created `Media` row references that
single row. -/
theorem content_dedup (db : DB) (url1 url2 : String) (r1 r2 : FetchResult)
    (hne : url1 ≠ url2) (hhash : r1.hash = r2.hash)
    (hm1 : ∀ m ∈ db.media, ¬(m.url = url1))
    (hm2 : ∀ m ∈ db.media, ¬(m.url = url2))
    (hwf : (db.localFiles.map (fun f => f.sha256)).Nodup) :
    (((download url2 r2 (download url1 r1 db).1).1.localFiles.filter
      (fun f => f.sha256 = r1.hash)).length = 1) ∧
    ((download url1 r1 db).2.1).sha256 = r1.hash ∧
    ((download url2 r2 (download url1 r1 db).1).2.1).sha256 = r1.hash ∧
    ((download url1 r1 db).2.2) = true ∧
    ((download url2 r2 (download url1 r1 db).1).2.2) = true := by
  have hfind1 : db.media.find? (fun m => m.url = url1) = none := by
    rw [List.find?_eq_none]
    intro m hm
    simpa using hm1 m hm
  have hd1 : download url1 r1 db =
      ((localFileUpsert r1 db).1, (localFileUpsert r1 db).2, true) := by
    unfold download
    rw [hfind1]
  have hspec1 := localFileUpsert_spec r1 db hwf
  have hfind2 : ((localFileUpsert r1 db).1).media.find?
      (fun m => m.url = url2) = none := by
    rw [hspec1.2.2.2, List.find?_eq_none]
    intro m hm
    simpa using hm2 m hm
  have hd2 : download url2 r2 (download url1 r1 db).1 =
      ((localFileUpsert r2 (localFileUpsert r1 db).1).1,
        (localFileUpsert r2 (localFileUpsert r1 db).1).2, true) := by
    rw [hd1]
    show download url2 r2 (localFileUpsert r1 db).1 =
      ((localFileUpsert r2 (localFileUpsert r1 db).1).1,
        (localFileUpsert r2 (localFileUpsert r1 db).1).2, true)
    unfold download
    rw [hfind2]
  have hspec2 := localFileUpsert_spec r2 (localFileUpsert r1 db).1 hspec1.2.1
  refine ⟨?_, ?_, ?_, ?_, ?_⟩
  · rw [hd2]
    show ((localFileUpsert r2 (localFileUpsert r1 db).1).1.localFiles.filter
      (fun f => f.sha256 = r1.hash)).length = 1
    rw [hhash]
    exact hspec2.1
  · rw [hd1]
    exact hspec1.2.2.1
  · rw [hd2]
    show ((localFileUpsert r2 (localFileUpsert r1 db).1).2).sha256 = r1.hash
    rw [hhash]
    exact hspec2.2.2.1
  · rw [hd1]
  · rw [hd2]

/-- Witness for C6: downloading two different URLs with identical
content hash into the empty database leaves one `LocalFile` row. -/
theorem content_dedup_witness :
    (((download "u2" ⟨7, 10, "png", "image/png", 0⟩
        (download "u1" ⟨7, 10, "png", "image/png", 0⟩ DB.empty).1).1.localFiles.filter
      (fun f => f.sha256 = 7)).length = 1) ∧
    ((download "u1" ⟨7, 10, "png", "image/png", 0⟩ DB.empty).2.2) = true := by
  have h := content_dedup DB.empty "u1" "u2"
    ⟨7, 10, "png", "image/png", 0⟩ ⟨7, 10, "png", "image/png", 0⟩
    (by decide) rfl (fun m hm => absurd hm (List.not_mem_nil m))
    (fun m hm => absurd hm (List.not_mem_nil m)) (by decide)
  exact ⟨h.1, h.2.2.2.1⟩

/-- C7 as the spec words it: the *most recent* `Media` record with the
given source url, i.e. the last matching row in table (insertion)
order. -/
def mostRecentMediaWithUrl (db : DB) (url : String) : Option MediaRow :=
  (db.media.filter (fun m => m.url = url)).getLast?

/-- Counterexample to C7 as stated: with two `Media` rows for the same
url pointing at different (existing) files, `download` returns the
file of the *first* matching row — Prisma `findFirst` without an
`orderBy` — not the file of the most recent one. -/
theorem url_cache_uses_first_not_most_recent :
    (download "u" ⟨9, 1, "bin", "application/octet-stream", 0⟩
      { DB.empty with
        media := [⟨"m1", "photo", "u", "T1", 1⟩, ⟨"m2", "photo", "u", "T1", 2⟩],
        localFiles := [⟨1, 0, 5, 0, 0⟩, ⟨2, 0, 6, 0, 0⟩] }).2.1.sha256 = 1 ∧
    mostRecentMediaWithUrl
      { DB.empty with
        media := [⟨"m1", "photo", "u", "T1", 1⟩, ⟨"m2", "photo", "u", "T1", 2⟩],
        localFiles := [⟨1, 0, 5, 0, 0⟩, ⟨2, 0, 6, 0, 0⟩] } "u" =
      some ⟨"m2", "photo", "u", "T1", 2⟩ ∧
    (1 : Nat) ≠ 2 := by
  refine ⟨?_, ?_, ?_⟩ <;> decide

/-- C7 amended: before any network fetch, `download` looks up the
first `Media` record with the same source url in table order (Prisma
`findFirst` — not necessarily the most recent one); if one is found and
its referenced `LocalFile` row still exists, that `LocalFile` is
returned immediately, with no fetch and no database change. -/
theorem url_cache_hit (db : DB) (url : String) (resp : FetchResult)
    (m : MediaRow) (f : LocalFileRow)
    (hfind : db.media.find? (fun m2 => m2.url = url) = some m)
    (hfile : db.localFiles.find? (fun f2 => f2.sha256 = m.file_id) = some f) :
    download url resp db = (db, f, false) := by
  unfold download
  rw [hfind]
  dsimp only
  rw [hfile]

/-- Witness for C7 (amended): a url with a cached media row whose file
exists is served from the database with no fetch. -/
theorem url_cache_hit_witness :
    download "u" ⟨9, 1, "bin", "application/octet-stream", 0⟩
      { DB.empty with
        media := [⟨"m1", "photo", "u", "T1", 1⟩],
        localFiles := [⟨1, 0, 5, 0, 0⟩] } =
      ({ DB.empty with
        media := [⟨"m1", "photo", "u", "T1", 1⟩],
        localFiles := [⟨1, 0, 5, 0, 0⟩] }, ⟨1, 0, 5, 0, 0⟩, false) := by
  exact url_cache_hit
    { DB.empty with
      media := [⟨"m1", "photo", "u", "T1", 1⟩],
      localFiles := [⟨1, 0, 5, 0, 0⟩] }
    "u" ⟨9, 1, "bin", "application/octet-stream", 0⟩
    ⟨"m1", "photo", "u", "T1", 1⟩ ⟨1, 0, 5, 0, 0⟩ (by decide) (by decide)

/-! ## linkEntities (`src/util/conversion.ts`), C8 -/

/-- A text annotation handed to `linkEntities`: a hashtag, mention or
url entity over the half-open code-point range `[start, stop)`. -/
inductive TextEntity where
  | hashtag (start : Nat) (stop : Nat) (tag : String)
  | mention (start : Nat) (stop : Nat) (username : String)
  | url (start : Nat) (stop : Nat) (url : String)
      (expanded_url : Option String) (display_url : Option String)
deriving Repr, DecidableEq

def TextEntity.start : TextEntity → Nat
  | .hashtag s _ _ => s
  | .mention s _ _ => s
  | .url s _ _ _ _ => s

def TextEntity.stop : TextEntity → Nat
  | .hashtag _ e _ => e
  | .mention _ e _ => e
  | .url _ e _ _ _ => e

/-- JavaScript `a || b` on strings: `b` when `a` is null or empty. -/
def orFalsy (o : Option String) (dflt : String) : String :=
  match o with
  | some s => if s = "" then dflt else s
  | none => dflt

/-- The inline link each entity kind is replaced with (the
`is<…Entity>` branch chain of `linkEntities`; the `ignoreSelfLink`
option is not passed here). -/
def TextEntity.replacement : TextEntity → String
  | .hashtag _ _ tag =>
    "<a href=\"https://twitter.com/hashtag/" ++ tag ++ "\">#" ++ tag ++ "</a>"
  | .mention _ _ username =>
    "<a href=\"https://twitter.com/" ++ username ++ "\">@" ++ username ++ "</a>"
  | .url _ _ u exp disp =>
    "<a href=\"" ++ orFalsy exp u ++ "\">" ++ orFalsy disp u ++ "</a>"

/-- The dedup `entities.filter((element, index, array) =>
array.findIndex(e => e.start === element.start) === index)`: keep only
the first entity at each start offset. -/
def uniqueByStart (es : List TextEntity) : List TextEntity :=
  (es.enum.filter
    (fun p => es.findIdx (fun e2 => e2.start == p.2.start) == p.1)).map
    (fun p => p.2)

/-- One step of the stable JavaScript
`sort((a, b) => a.start - b.start)`. -/
def insertAscStart (e : TextEntity) : List TextEntity → List TextEntity
  | [] => [e]
  | x :: xs =>
    if x.start < e.start then x :: insertAscStart e xs
    else e :: x :: xs

/-- Stable sort by ascending start offset. -/
def sortAscStart : List TextEntity → List TextEntity
  | [] => []
  | x :: xs => insertAscStart x (sortAscStart xs)

/-- The splice `chars = [...chars.slice(0, start), ...replacement,
...chars.slice(end)]`: splice the replacement over the entity's
code-point range. -/
def applyEntity (chars : List Char) (e : TextEntity) : List Char :=
  chars.take e.start ++ e.replacement.toList ++ chars.drop e.stop

/-- Function `linkEntities(text, entities)`: spread the text into code points,
deduplicate annotations by start offset keeping the first, sort
ascending by start and reverse (= process in descending start order),
splice each replacement in, and join. -/
def linkEntities (text : String) (entities : List TextEntity) : String :=
  String.mk
    (((sortAscStart (uniqueByStart entities)).reverse).foldl applyEntity
      text.toList)

theorem uniqueByStart_single (e : TextEntity) : uniqueByStart [e] = [e] := by
  simp [uniqueByStart, List.enum, List.enumFrom, List.findIdx_cons]

theorem uniqueByStart_pair_ne {e1 e2 : TextEntity}
    (h : e1.start ≠ e2.start) : uniqueByStart [e1, e2] = [e1, e2] := by
  have h1 : (e1.start == e1.start) = true := beq_self_eq_true _
  have h2 : (e1.start == e2.start) = false := by
    rw [beq_eq_false_iff_ne]
    exact h
  have h3 : (e2.start == e2.start) = true := beq_self_eq_true _
  simp [uniqueByStart, List.enum, List.enumFrom, List.findIdx_cons, h1, h2, h3]

theorem uniqueByStart_pair_eq {e1 e2 : TextEntity}
    (h : e2.start = e1.start) : uniqueByStart [e1, e2] = [e1] := by
  have h1 : (e1.start == e1.start) = true := beq_self_eq_true _
  have h2 : (e1.start == e2.start) = true := by
    rw [beq_iff_eq]
    exact h.symm
  simp [uniqueByStart, List.enum, List.enumFrom, List.findIdx_cons, h1, h2]

theorem sortAscStart_pair_lt {e1 e2 : TextEntity}
    (h : e1.start < e2.start) :
    sortAscStart [e1, e2] = [e1, e2] ∧ sortAscStart [e2, e1] = [e1, e2] := by
  constructor
  · show insertAscStart e1 (insertAscStart e2 []) = [e1, e2]
    show insertAscStart e1 [e2] = [e1, e2]
    unfold insertAscStart
    rw [if_neg (by omega : ¬ e2.start < e1.start)]
  · show insertAscStart e2 (insertAscStart e1 []) = [e1, e2]
    show insertAscStart e2 [e1] = [e1, e2]
    unfold insertAscStart
    rw [if_pos h]
    rfl

/-- C8: `linkEntities` is a pure transform over code points.  (i) A
single annotation replaces exactly its half-open code-point range
`[start, stop)`, leaving the prefix and suffix untouched.  (ii) Two
disjoint annotations are both replaced at their own offsets — the
descending-start processing order keeps the second annotation's offsets
valid — and the result is independent of the order the annotations
arrive in.  (iii) Annotations sharing a start offset are deduplicated
keeping only the first. -/
theorem linkEntities_spec (text : String) (e1 e2 e3 : TextEntity)
    (h11 : e1.start ≤ e1.stop) (h12 : e1.stop ≤ e2.start)
    (hlt : e1.start < e2.start)
    (h22 : e2.start ≤ e2.stop) (h2len : e2.stop ≤ text.toList.length)
    (hdup : e3.start = e1.start) :
    linkEntities text [e1] =
      String.mk (text.toList.take e1.start ++ e1.replacement.toList ++
        text.toList.drop e1.stop) ∧
    linkEntities text [e1, e2] =
      String.mk (text.toList.take e1.start ++ e1.replacement.toList ++
        (text.toList.take e2.start).drop e1.stop ++ e2.replacement.toList ++
        text.toList.drop e2.stop) ∧
    linkEntities text [e2, e1] = linkEntities text [e1, e2] ∧
    linkEntities text [e1, e3] = linkEntities text [e1] := by
  have hne : e1.start ≠ e2.start := Nat.ne_of_lt hlt
  have hpair := sortAscStart_pair_lt hlt
  have hs2len : e2.start ≤ text.toList.length := le_trans h22 h2len
  have htk : (text.toList.take e2.start).length = e2.start := by
    rw [List.length_take]
    exact Nat.min_eq_left hs2len
  have hlen2 : (text.toList.take e2.start ++ e2.replacement.toList).length =
      e2.start + e2.replacement.toList.length := by
    rw [List.length_append, htk]
  have hA : ((text.toList.take e2.start ++ e2.replacement.toList) ++
      text.toList.drop e2.stop).take e1.start = text.toList.take e1.start := by
    rw [List.take_append_eq_append_take, List.take_append_eq_append_take,
      List.take_take]
    have c1 : e1.start -
        (text.toList.take e2.start ++ e2.replacement.toList).length = 0 := by
      rw [hlen2]; omega
    have c2 : e1.start - (text.toList.take e2.start).length = 0 := by
      rw [htk]; omega
    rw [c1, c2]
    simp [Nat.min_eq_left (Nat.le_of_lt hlt)]
  have hB : ((text.toList.take e2.start ++ e2.replacement.toList) ++
      text.toList.drop e2.stop).drop e1.stop =
      (text.toList.take e2.start).drop e1.stop ++
        (e2.replacement.toList ++ text.toList.drop e2.stop) := by
    rw [List.drop_append_eq_append_drop, List.drop_append_eq_append_drop]
    have c1 : e1.stop -
        (text.toList.take e2.start ++ e2.replacement.toList).length = 0 := by
      rw [hlen2]; omega
    have c2 : e1.stop - (text.toList.take e2.start).length = 0 := by
      rw [htk]; omega
    rw [c1, c2]
    simp [List.append_assoc]
  have hmain : linkEntities text [e1, e2] =
      String.mk (text.toList.take e1.start ++ e1.replacement.toList ++
        (text.toList.take e2.start).drop e1.stop ++ e2.replacement.toList ++
        text.toList.drop e2.stop) := by
    unfold linkEntities
    rw [uniqueByStart_pair_ne hne, hpair.1]
    show String.mk (applyEntity (applyEntity text.toList e2) e1) = _
    unfold applyEntity
    rw [hA, hB]
    congr 1
    simp [List.append_assoc]
  refine ⟨?_, hmain, ?_, ?_⟩
  · unfold linkEntities
    rw [uniqueByStart_single]
    rfl
  · unfold linkEntities
    rw [uniqueByStart_pair_ne hne, uniqueByStart_pair_ne (fun hc => hne hc.symm),
      hpair.1, hpair.2]
  · unfold linkEntities
    rw [uniqueByStart_pair_eq hdup, uniqueByStart_single]

/-- Witness for C8 at the spec's example: `"hi @bob"` with a mention
annotation at `[3, 7)` renders with exactly that code-point range
replaced by a link, and a second annotation at the same start offset is
dropped. -/
theorem linkEntities_spec_witness :
    linkEntities "hi @bob" [.mention 3 7 "bob"] =
      "hi <a href=\"https://twitter.com/bob\">@bob</a>" ∧
    linkEntities "hi @bob" [.mention 3 7 "bob", .hashtag 3 6 "x"] =
      linkEntities "hi @bob" [.mention 3 7 "bob"] := by
  have h := linkEntities_spec "hi @bob" (.mention 3 7 "bob")
    (.url 7 7 "u" none none) (.hashtag 3 6 "x")
    (by decide) (by decide) (by decide) (by decide) (by decide) (by decide)
  refine ⟨h.1.trans (by decide), h.2.2.2⟩

/-! ## JobManager run loop and initialize (C9)

The scheduler state: the durable `Job` table, the in-memory `queue`,
and the events emitted through the `TypedEmitter`.  A job's execution
(`downloadUserLikesJob`) is abstracted by an `outcome` oracle; its own
database writes happen through the page transactions modelled above and
never delete `Job` rows, so here the job table changes only through the
scheduler's own `job.delete` on success. -/

/-- An event emitted by `JobManager` (`completed` / `failed`, the
latter carrying the cause). -/
inductive JobEvent where
  | completed (job : JobRow)
  | failed (job : JobRow) (error : String)
deriving Repr, DecidableEq

/-- Scheduler state. -/
structure Sched where
  store : List JobRow
  queue : List JobRow
  events : List JobEvent
deriving Repr, DecidableEq

/-- The event the run loop emits for one job: `completed` after the
row is deleted, `failed` with the thrown error. -/
def eventOf (outcome : JobRow → Except String Unit) (j : JobRow) : JobEvent :=
  match outcome j with
  | .ok _ => .completed j
  | .error e => .failed j e

/-- The `while (this.queue.length > 0)` loop of `JobManager.run`:
shift one job, dispatch it; on success delete its durable row and emit
`completed`; on any error emit `failed` with the job and cause, leave
the row in place, and proceed to the next queued job. -/
def runJobs (outcome : JobRow → Except String Unit) :
    List JobRow → List JobRow → List JobEvent → Sched
  | [], store, events => ⟨store, [], events⟩
  | j :: rest, store, events =>
    match outcome j with
    | .ok _ =>
      runJobs outcome rest (store.filter (fun r => ¬ r.id = j.id))
        (events ++ [.completed j])
    | .error e => runJobs outcome rest store (events ++ [.failed j e])

/-- Method `run()` drains the in-memory queue. -/
def runLoop (outcome : JobRow → Except String Unit) (s : Sched) : Sched :=
  runJobs outcome s.queue s.store s.events

/-- Method `JobManager.initialize()` on process start: `getDeferredJobs`
reads every `Job` row still in the durable store (ordered by creation
time, which is table order) and `_add`s each one to the queue, which
starts the run loop. -/
def initOnStartup (outcome : JobRow → Except String Unit)
    (store : List JobRow) : Sched :=
  runLoop outcome ⟨store, store, []⟩

/-- The run loop processes each queued job exactly once, in order:
it ends with an empty queue, emits one event per job, and deletes
exactly the rows of successful jobs. -/
theorem runJobs_spec (outcome : JobRow → Except String Unit) :
    ∀ (q store : List JobRow) (events : List JobEvent),
      runJobs outcome q store events =
        ⟨q.foldl (fun st j =>
            match outcome j with
            | .ok _ => st.filter (fun r => ¬ r.id = j.id)
            | .error _ => st) store,
          [], events ++ q.map (eventOf outcome)⟩
  | [], store, events => by simp [runJobs]
  | j :: rest, store, events => by
    unfold runJobs
    cases ho : outcome j with
    | ok u =>
      dsimp only
      have hx := runJobs_spec outcome rest
        (store.filter (fun r => ¬ r.id = j.id)) (events ++ [JobEvent.completed j])
      rw [hx]
      simp [eventOf, ho, List.append_assoc]
    | error e =>
      dsimp only
      have hx := runJobs_spec outcome rest store (events ++ [JobEvent.failed j e])
      rw [hx]
      simp [eventOf, ho, List.append_assoc]

theorem mem_foldl_delete (outcome : JobRow → Except String Unit) {j : JobRow} :
    ∀ (q store : List JobRow), j ∈ store → (∀ k ∈ q, k.id ≠ j.id) →
      j ∈ q.foldl (fun st k =>
        match outcome k with
        | .ok _ => st.filter (fun r => ¬ r.id = k.id)
        | .error _ => st) store
  | [], _, hmem, _ => hmem
  | k :: q, store, hmem, hids => by
    rw [List.foldl_cons]
    refine mem_foldl_delete outcome q _ ?_
      (fun x hx => hids x (List.mem_cons_of_mem k hx))
    cases ho : outcome k with
    | ok u =>
      simp only
      rw [List.mem_filter]
      refine ⟨hmem, ?_⟩
      simp only [decide_eq_true_eq]
      intro hc
      exact hids k (List.mem_cons_self k q) (hc ▸ rfl)
    | error e => exact hmem

/-- C9: when a job's execution throws, the scheduler emits a `failed`
event carrying the job and the cause, leaves the job's row in the
durable store, does not re-enqueue it within the same run (the queue
ends empty, with exactly one event for it), and proceeds to the
remaining queued jobs; on the next process start `initialize`
re-enqueues every job row still in the store, so the failed job is
retried then. -/
theorem scheduler_failure_handling
    (outcome outcome2 : JobRow → Except String Unit)
    (j : JobRow) (rest store : List JobRow) (events : List JobEvent)
    (e : String)
    (hfail : outcome j = .error e)
    (hmem : j ∈ store)
    (hids : ∀ k ∈ rest, k.id ≠ j.id) :
    (JobEvent.failed j e) ∈ (runLoop outcome ⟨store, j :: rest, events⟩).events ∧
    j ∈ (runLoop outcome ⟨store, j :: rest, events⟩).store ∧
    (runLoop outcome ⟨store, j :: rest, events⟩).queue = [] ∧
    (runLoop outcome ⟨store, j :: rest, events⟩).events =
      events ++ [JobEvent.failed j e] ++ rest.map (eventOf outcome) ∧
    (eventOf outcome2 j) ∈
      (initOnStartup outcome2
        (runLoop outcome ⟨store, j :: rest, events⟩).store).events := by
  have hrun : runLoop outcome ⟨store, j :: rest, events⟩ =
      ⟨(j :: rest).foldl (fun st k =>
          match outcome k with
          | .ok _ => st.filter (fun r => ¬ r.id = k.id)
          | .error _ => st) store,
        [], events ++ (j :: rest).map (eventOf outcome)⟩ := by
    unfold runLoop
    exact runJobs_spec outcome (j :: rest) store events
  have hstore : j ∈ (runLoop outcome ⟨store, j :: rest, events⟩).store := by
    rw [hrun]
    show j ∈ (j :: rest).foldl _ store
    simp only [List.foldl_cons, hfail]
    exact mem_foldl_delete outcome rest store hmem hids
  have hev : (j :: rest).map (eventOf outcome) =
      JobEvent.failed j e :: rest.map (eventOf outcome) := by
    simp [eventOf, hfail]
  refine ⟨?_, hstore, ?_, ?_, ?_⟩
  · rw [hrun]
    show JobEvent.failed j e ∈ events ++ (j :: rest).map (eventOf outcome)
    rw [hev]
    exact List.mem_append_right _ (List.mem_cons_self _ _)
  · rw [hrun]
  · rw [hrun]
    show events ++ (j :: rest).map (eventOf outcome) = _
    rw [hev]
    simp
  · unfold initOnStartup runLoop
    rw [runJobs_spec]
    show eventOf outcome2 j ∈ [] ++ _
    rw [List.nil_append]
    exact List.mem_map_of_mem _ hstore

/-- Witness for C9: a concrete failing job next to a succeeding one —
the failure event is emitted, the failed row survives the run, the
queue drains, the next job still runs, and a restart re-enqueues and
re-processes the failed job. -/
theorem scheduler_failure_handling_witness :
    (JobEvent.failed ⟨1, "USER_LIKES_DOWNLOAD", ⟨"U1", "s", none⟩⟩ "boom") ∈
      (runLoop (fun k => if k.id = 1 then .error "boom" else .ok ())
        ⟨[⟨1, "USER_LIKES_DOWNLOAD", ⟨"U1", "s", none⟩⟩,
          ⟨2, "USER_LIKES_DOWNLOAD", ⟨"U2", "s", none⟩⟩],
          [⟨1, "USER_LIKES_DOWNLOAD", ⟨"U1", "s", none⟩⟩,
            ⟨2, "USER_LIKES_DOWNLOAD", ⟨"U2", "s", none⟩⟩], []⟩).events ∧
    (runLoop (fun k => if k.id = 1 then .error "boom" else .ok ())
        ⟨[⟨1, "USER_LIKES_DOWNLOAD", ⟨"U1", "s", none⟩⟩,
          ⟨2, "USER_LIKES_DOWNLOAD", ⟨"U2", "s", none⟩⟩],
          [⟨1, "USER_LIKES_DOWNLOAD", ⟨"U1", "s", none⟩⟩,
            ⟨2, "USER_LIKES_DOWNLOAD", ⟨"U2", "s", none⟩⟩], []⟩).queue = [] := by
  have h := scheduler_failure_handling
    (fun k => if k.id = 1 then .error "boom" else .ok ())
    (fun k => if k.id = 1 then .error "boom" else .ok ())
    ⟨1, "USER_LIKES_DOWNLOAD", ⟨"U1", "s", none⟩⟩
    [⟨2, "USER_LIKES_DOWNLOAD", ⟨"U2", "s", none⟩⟩]
    [⟨1, "USER_LIKES_DOWNLOAD", ⟨"U1", "s", none⟩⟩,
      ⟨2, "USER_LIKES_DOWNLOAD", ⟨"U2", "s", none⟩⟩]
    [] "boom" (by rfl) (by decide) (by decide)
  exact ⟨h.1, h.2.2.1⟩

end TwitterArchiver
